import Mathlib

/-!
Verification of the delay-timer recurring task scheduler.

The repository ships its scheduling core behind a library facade; the files
available here are its integration tests (`tests/simulation.rs`) and an
example (`examples/demo.rs`).  The core itself (timing wheel, task registry,
instance table, dispatcher loop, control channel, event bus) is therefore
modelled from the specification, definition by definition; each such
definition carries a doc comment naming the spec section it follows.

The model is a discrete-event embedding: one tick is one second, the
dispatcher is a function from a scheduler state and the commands drained at
the top of the tick to the next state, and user-body completions and
handle cancellations are explicit operations interleaved between ticks.
-/

namespace DelayTimer

/-- Modelled from the spec (§6, "Instance state constants"): `RUNNING = 1`. -/
def RUNNING : Nat := 1

/-- Modelled from the spec (§6, "Instance state constants"): `COMPLETED = 2`. -/
def COMPLETED : Nat := 2

/-- Modelled from the spec (§6, "Instance state constants"): `CANCELLED = 3`. -/
def CANCELLED : Nat := 3

/-- Modelled from the spec (§6, "Instance state constants"): `TIMEOUT = 4`. -/
def TIMEOUT : Nat := 4

/-- Modelled from the spec (§6, "Frequency grammar"): `Once`, `Repeated(cron)`,
`CountDown(n, cron)`.  The cron expression itself lives in the task's
schedule iterator, so only the repetition policy is recorded here. -/
inductive Frequency where
  | Once : Frequency
  | Repeated : Frequency
  | CountDown : Nat → Frequency
deriving DecidableEq

/-- Modelled from the spec (§3, "Task").  The cron iterator is embedded as
`sched : Nat → Option Nat`, the lazy sequence of future wall-clock instants
(in seconds); `cursor` indexes the next instant to consume, and
`remaining_count` is the mutable countdown (`none` for `Repeated`). -/
structure Task where
  task_id : Nat
  frequency : Frequency
  max_parallel : Nat
  max_running_time : Option Nat
  sched : Nat → Option Nat
  remaining_count : Option Nat
  cursor : Nat

/-- Modelled from the spec (§3): initial `remaining_count` derived from the
frequency: `Once` fires once, `Repeated` is unbounded, `CountDown n` fires
`n` times. -/
def initRemaining : Frequency → Option Nat
  | .Once => some 1
  | .Repeated => none
  | .CountDown n => some n

/-- Modelled from the spec (§6, "TaskBuilder"): assemble a `Task` from
`{task_id, frequency, body, max_parallel?, max_running_time?}` together
with the cron iterator produced by the parsing library. -/
def buildTask (id : Nat) (freq : Frequency) (mp : Nat) (mrt : Option Nat)
    (sched : Nat → Option Nat) : Task :=
  { task_id := id, frequency := freq, max_parallel := mp,
    max_running_time := mrt, sched := sched,
    remaining_count := initRemaining freq, cursor := 0 }

/-- Modelled from the spec (§3, "Instance"): one firing of a task; the
`signaled` flag is the cooperative termination token. -/
structure Instance where
  instance_id : Nat
  task_id : Nat
  state : Nat
  started_at : Nat
  deadline : Option Nat
  signaled : Bool
deriving DecidableEq

/-- The lock-free read of the instance handle's atomic state cell. -/
def Instance.getState (i : Instance) : Nat := i.state

/-- Modelled from the spec (§4.G): the global `PublicEvent` stream. -/
inductive Event where
  | instanceStarted : Nat → Nat → Event
  | instanceCompleted : Nat → Nat → Event
  | instanceCancelled : Nat → Nat → Event
  | instanceTimeout : Nat → Nat → Event
  | parallelLimitReached : Nat → Event
  | taskRemoved : Nat → Event
deriving DecidableEq

/-- Modelled from the spec (§4.C, "Timing Wheel"): a single-level hashed
wheel of `size` slots plus an overflow store keyed by absolute second.
The overflow min-heap is embedded as a plain list that every tick scans
in full: the set of matured keys drained per tick is the same. -/
structure Wheel where
  size : Nat
  current : Nat
  slots : List (List Nat)
  overflow : List (Nat × Nat)

/-- Modelled from the spec (§4.C): an empty wheel of `size` slots. -/
def mkWheel (size : Nat) : Wheel :=
  { size := size, current := 0, slots := List.replicate size [], overflow := [] }

/-- Modelled from the spec (§4.C `insert`): append to slot
`(current + delay) mod size` when `delay < size`, else store in overflow
keyed by `now + delay`. -/
def Wheel.place (w : Wheel) (tid delay now : Nat) : Wheel :=
  if delay < w.size then
    let idx := (w.current + delay) % w.size
    { w with slots := w.slots.set idx ((w.slots.getD idx []) ++ [tid]) }
  else
    { w with overflow := w.overflow ++ [(now + delay, tid)] }

/-- Modelled from the spec (§4.C `remove`): find and erase the task's
occurrence.  The auxiliary `task_id → slot` map is embedded by erasing the
id from every slot and from the overflow store. -/
def Wheel.remove (w : Wheel) (tid : Nat) : Wheel :=
  { w with slots := w.slots.map (fun sl => sl.filter (fun x => !decide (x = tid))),
           overflow := w.overflow.filter (fun e => !decide (e.2 = tid)) }

/-- Modelled from the spec (§4.C): `insert` keeps the single-occurrence
invariant via the auxiliary map, so an insert first erases any previous
occurrence of the id and then places it. -/
def Wheel.insert (w : Wheel) (tid delay now : Nat) : Wheel :=
  (w.remove tid).place tid delay now

/-- Move one overflow entry that has come within wheel reach into its
slot. -/
def promote (cur size now : Nat) (sl : List (List Nat)) (e : Nat × Nat) :
    List (List Nat) :=
  let idx := (cur + (e.1 - now)) % size
  sl.set idx ((sl.getD idx []) ++ [e.2])

/-- Modelled from the spec (§4.C `pop_due`): yield the current slot and the
matured overflow entries (key ≤ now); overflow entries that have come
within wheel reach (now < key < now + size) are moved into their slot
instead of being emitted. -/
def Wheel.popDue (w : Wheel) (now : Nat) : List Nat × Wheel :=
  let slotDue := w.slots.getD w.current []
  let ovDue := (w.overflow.filter (fun e => decide (e.1 ≤ now))).map Prod.snd
  let near := w.overflow.filter
    (fun e => decide (now < e.1) && decide (e.1 < now + w.size))
  let far := w.overflow.filter (fun e => decide (now + w.size ≤ e.1))
  let slots2 := near.foldl (promote w.current w.size now) (w.slots.set w.current [])
  (slotDue ++ ovDue, { w with slots := slots2, overflow := far })

/-- Modelled from the spec (§4.C): the current slot index advances by one
per tick. -/
def Wheel.advanceCur (w : Wheel) : Wheel :=
  { w with current := (w.current + 1) % w.size }

/-- Number of occurrences of `y` in one slot. -/
def slotCount (sl : List Nat) (y : Nat) : Nat :=
  sl.countP (fun a => decide (a = y))

/-- Number of occurrences of `y` across all slots. -/
def slotsCount (sls : List (List Nat)) (y : Nat) : Nat :=
  (sls.map (fun sl => slotCount sl y)).sum

/-- Total number of occurrences of a task id anywhere in the wheel. -/
def Wheel.count (w : Wheel) (y : Nat) : Nat :=
  slotsCount w.slots y + w.overflow.countP (fun e => decide (e.2 = y))

/-- Modelled from the spec (§2, §4): the scheduler state: clock, task
registry, timing wheel, instance table, per-task instance chains, global
event stream, fresh-instance counter and the stop flag. -/
structure Sched where
  now : Nat
  tasks : List Task
  wheel : Wheel
  instances : List Instance
  chains : List (Nat × List Nat)
  events : List Event
  next_instance_id : Nat
  stopped : Bool

/-- The set of registered task ids. -/
def taskIds (s : Sched) : List Nat := s.tasks.map Task.task_id

/-- Registry lookup by task id. -/
def lookupTask (s : Sched) (tid : Nat) : Option Task :=
  s.tasks.find? (fun t => decide (t.task_id = tid))

/-- `true` iff the instance is a RUNNING instance of task `tid`. -/
def Instance.isRunningOf (i : Instance) (tid : Nat) : Bool :=
  decide (i.task_id = tid) && decide (i.state = RUNNING)

/-- Modelled from the spec (§4.E): the per-task RUNNING counter, here the
number of RUNNING entries of the instance table for that task. -/
def runningCount (s : Sched) (tid : Nat) : Nat :=
  s.instances.countP (fun i => i.isRunningOf tid)

/-- Modelled from the spec (§3, "TaskInstancesChain"): bounded FIFO of
capacity 16, dropping the oldest unread entry on overflow. -/
def pushChain (chs : List (Nat × List Nat)) (tid iid : Nat) :
    List (Nat × List Nat) :=
  chs.map (fun c =>
    if c.1 = tid then
      (c.1, (if c.2.length < 16 then c.2 else c.2.drop 1) ++ [iid])
    else c)

/-- Modelled from the spec (§7): the synchronous validation errors of the
construction API. -/
inductive AddError where
  | stoppedErr : AddError
  | reservedId : AddError
  | duplicateId : AddError
  | invalidSchedule : AddError
deriving DecidableEq

/-- Modelled from the spec (§6, "TaskBuilder"): `task_id == 0` is reserved
and rejected at build time. -/
def spawnChecked (id : Nat) (freq : Frequency) (mp : Nat) (mrt : Option Nat)
    (sched : Nat → Option Nat) : Except AddError Task :=
  if id = 0 then Except.error AddError.reservedId
  else Except.ok (buildTask id freq mp mrt sched)

/-- Modelled from the spec (§4.D, §6): registration refuses a stopped
scheduler, the reserved id 0, a duplicate id, and a cron iterator with no
future instant; on success it consumes the first cron instant, inserts the
task into the wheel at the corresponding delay, and creates an empty
instance chain. -/
def addTask (s : Sched) (t : Task) : Sched × Option AddError :=
  if s.stopped then (s, some AddError.stoppedErr)
  else if t.task_id = 0 then (s, some AddError.reservedId)
  else if t.task_id ∈ taskIds s then (s, some AddError.duplicateId)
  else
    match t.sched t.cursor with
    | none => (s, some AddError.invalidSchedule)
    | some inst =>
      ({ s with
          tasks := s.tasks ++ [{ t with cursor := t.cursor + 1 }],
          wheel := s.wheel.insert t.task_id (inst - s.now) s.now,
          chains := s.chains ++ [(t.task_id, [])] }, none)

/-- Modelled from the spec (§3 invariants, §4.E): removing a task erases
its wheel entries, drops it from the registry, cooperatively cancels its
RUNNING instances (cancellation fan-out) and emits `TASK_REMOVED`. -/
def removeTask (s : Sched) (tid : Nat) : Sched :=
  if tid ∈ taskIds s then
    let victims := s.instances.filter (fun i => i.isRunningOf tid)
    { s with
        tasks := s.tasks.filter (fun t => !decide (t.task_id = tid)),
        wheel := s.wheel.remove tid,
        instances := s.instances.map (fun i =>
          if i.isRunningOf tid then { i with state := CANCELLED, signaled := true }
          else i),
        events := s.events
          ++ victims.map (fun i => Event.instanceCancelled tid i.instance_id)
          ++ [Event.taskRemoved tid] }
  else s

/-- Modelled from the spec (§4.F, "Advance"): remove the task from the
wheel and re-insert it with delay 0 so that it fires on the next tick; the
cron cursor is not consumed. -/
def advanceTask (s : Sched) (tid : Nat) : Sched :=
  if tid ∈ taskIds s then { s with wheel := s.wheel.insert tid 0 s.now }
  else s

/-- Possible outcomes of cancelling an instance through its handle. -/
inductive CancelResult where
  | ok : CancelResult
  | alreadyTerminal : CancelResult
  | unknownId : CancelResult
deriving DecidableEq

/-- Modelled from the spec (§4.E, "Cancelled"): cancel on a RUNNING
instance transitions it to CANCELLED, signals the termination token and
emits `INSTANCE_CANCELLED`; cancel on a terminal instance returns
`ALREADY_TERMINAL` and changes nothing. -/
def cancelInstance (s : Sched) (iid : Nat) : Sched × CancelResult :=
  match s.instances.find? (fun i => decide (i.instance_id = iid)) with
  | none => (s, CancelResult.unknownId)
  | some i =>
    if i.state = RUNNING then
      ({ s with
          instances := s.instances.map (fun j =>
            if j.instance_id = iid then { j with state := CANCELLED, signaled := true }
            else j),
          events := s.events ++ [Event.instanceCancelled i.task_id iid] },
       CancelResult.ok)
    else (s, CancelResult.alreadyTerminal)

/-- Modelled from the spec (§4.E, "Completed normally"): the body's
`finish()` transitions RUNNING → COMPLETED and emits `INSTANCE_COMPLETED`;
a second `finish()` (or a finish after timeout or cancellation) is a
no-op. -/
def finishInstance (s : Sched) (iid : Nat) : Sched :=
  match s.instances.find? (fun i => decide (i.instance_id = iid)) with
  | none => s
  | some i =>
    if i.state = RUNNING then
      { s with
          instances := s.instances.map (fun j =>
            if j.instance_id = iid then { j with state := COMPLETED } else j),
          events := s.events ++ [Event.instanceCompleted i.task_id iid] }
    else s

/-- Modelled from the spec (§4.F step 3): spawn one instance of a due
task: fresh id, state RUNNING, deadline `now + max_running_time` when
present; push onto the task's chain and emit `INSTANCE_STARTED`. -/
def spawnInstance (s : Sched) (t : Task) : Sched :=
  let iid := s.next_instance_id
  { s with
      instances := s.instances ++
        [{ instance_id := iid, task_id := t.task_id, state := RUNNING,
           started_at := s.now,
           deadline := t.max_running_time.map (fun k => s.now + k),
           signaled := false }],
      next_instance_id := iid + 1,
      chains := pushChain s.chains t.task_id iid,
      events := s.events ++ [Event.instanceStarted t.task_id iid] }

/-- Decrement of the countdown counter on a firing. -/
def decRemaining : Option Nat → Option Nat
  | none => none
  | some n => some (n - 1)

/-- Modelled from the spec (§4.F step 3): handle one popped due task id:
skip it when unknown or retired; when the RUNNING count has reached
`max_parallel`, emit `PARALLEL_LIMIT_REACHED` and do not spawn, else
spawn; then advance the cron cursor, decrement the countdown, and either
retire the task (countdown exhausted or schedule ended) or re-insert it at
the new delay (a re-inserted task can fire at the next tick at the
earliest, hence the delay floor of one). -/
def dispatchOne (s : Sched) (tid : Nat) : Sched :=
  match lookupTask s tid with
  | none => s
  | some t =>
    if t.remaining_count = some 0 then s
    else
      let s1 :=
        if t.max_parallel ≤ runningCount s tid then
          { s with events := s.events ++ [Event.parallelLimitReached tid] }
        else spawnInstance s t
      let t2 := { t with cursor := t.cursor + 1,
                         remaining_count := decRemaining t.remaining_count }
      let s2 := { s1 with tasks := s1.tasks.map (fun u =>
                    if u.task_id = tid then t2 else u) }
      if t2.remaining_count = some 0 then s2
      else
        match t.sched t.cursor with
        | none => s2
        | some inst =>
          { s2 with wheel := s2.wheel.insert tid (max (inst - s2.now) 1) s2.now }

/-- `true` iff the instance is RUNNING and its deadline is the instant `t`. -/
def Instance.timedOutAt (i : Instance) (t : Nat) : Bool :=
  decide (i.state = RUNNING) && decide (i.deadline = some t)

/-- Modelled from the spec (§4.F step 4): scan instances whose deadline is
the current tick; mark each TIMEOUT, signal its handle and emit
`INSTANCE_TIMEOUT` (the RUNNING counter, being derived from the table,
drops with each marking). -/
def timeoutScan (s : Sched) : Sched :=
  let victims := s.instances.filter (fun i => i.timedOutAt s.now)
  { s with
      instances := s.instances.map (fun i =>
        if i.timedOutAt s.now then { i with state := TIMEOUT, signaled := true }
        else i),
      events := s.events
        ++ victims.map (fun i => Event.instanceTimeout i.task_id i.instance_id) }

/-- Modelled from the spec (§4.H): the control-channel commands. -/
inductive Cmd where
  | add : Task → Cmd
  | remove : Nat → Cmd
  | advance : Nat → Cmd
  | cancelInst : Nat → Cmd
  | stop : Cmd

/-- Modelled from the spec (§4.H): effect of one control command. -/
def applyCmd (s : Sched) (c : Cmd) : Sched :=
  match c with
  | .add t => (addTask s t).1
  | .remove tid => removeTask s tid
  | .advance tid => advanceTask s tid
  | .cancelInst iid => (cancelInstance s iid).1
  | .stop => { s with stopped := true }

/-- Drain the control channel: all pending commands in arrival order. -/
def applyCmds (s : Sched) (cmds : List Cmd) : Sched :=
  cmds.foldl applyCmd s

/-- Modelled from the spec (§4.F step 2-3): pop the due task ids from the
wheel and dispatch them in pop order. -/
def dispatchStep (s0 : Sched) : Sched :=
  (s0.wheel.popDue s0.now).1.foldl dispatchOne
    { s0 with wheel := (s0.wheel.popDue s0.now).2 }

/-- End of a tick: the clock and the wheel's current slot advance by
one. -/
def endStep (s3 : Sched) : Sched :=
  { s3 with now := s3.now + 1, wheel := s3.wheel.advanceCur }

/-- Modelled from the spec (§4.F): one tick: drain the control channel
before any dispatch, pop the due task ids, dispatch them in pop order,
run the deadline scan, then advance the clock and the wheel's current
slot.  A stopped scheduler has ceased dispatching. -/
def tickFn (s : Sched) (cmds : List Cmd) : Sched :=
  let s0 := applyCmds s cmds
  if s0.stopped then { s0 with now := s0.now + 1 }
  else endStep (timeoutScan (dispatchStep s0))

/-- The externally observable operations between which the model's state
evolves: a clock tick carrying the commands drained at its top, a user
body finishing its instance, and a handle cancellation. -/
inductive Op where
  | tick : List Cmd → Op
  | finish : Nat → Op
  | cancel : Nat → Op

/-- Effect of one operation. -/
def applyOp (s : Sched) (o : Op) : Sched :=
  match o with
  | .tick cmds => tickFn s cmds
  | .finish iid => finishInstance s iid
  | .cancel iid => (cancelInstance s iid).1

/-- Run a list of operations. -/
def runOps (s : Sched) (ops : List Op) : Sched :=
  ops.foldl applyOp s

/-- Modelled from the spec (§6 `build`): a fresh scheduler over a wheel of
`W` slots. -/
def initSched (W : Nat) : Sched :=
  { now := 0, tasks := [], wheel := mkWheel W, instances := [], chains := [],
    events := [], next_instance_id := 1, stopped := false }

/-- The states the scheduler can be in, over a wheel of `W` slots. -/
inductive Reachable (W : Nat) : Sched → Prop where
  | init : Reachable W (initSched W)
  | step (s : Sched) (o : Op) : Reachable W s → Reachable W (applyOp s o)

/-- Number of `INSTANCE_STARTED` events for task `tid` (its firings). -/
def startedCount (evs : List Event) (tid : Nat) : Nat :=
  evs.countP (fun e =>
    match e with
    | Event.instanceStarted t _ => decide (t = tid)
    | _ => false)

/-- The wheel operations named by the spec (§4.C): `insert`, `pop_due`,
`remove`, plus the once-per-tick advance of the current slot. -/
inductive WheelOp where
  | ins : Nat → Nat → Nat → WheelOp
  | pop : Nat → WheelOp
  | rm : Nat → WheelOp
  | adv : WheelOp

/-- Effect of one wheel operation on the wheel. -/
def applyWheelOp (w : Wheel) (o : WheelOp) : Wheel :=
  match o with
  | .ins tid delay now => w.insert tid delay now
  | .pop now => (w.popDue now).2
  | .rm tid => w.remove tid
  | .adv => w.advanceCur

/-- Run a sequence of wheel operations. -/
def runWheelOps (w : Wheel) (ops : List WheelOp) : Wheel :=
  ops.foldl applyWheelOp w

/-- A terminal instance state: COMPLETED, CANCELLED or TIMEOUT. -/
def isTerminal (st : Nat) : Prop :=
  st = COMPLETED ∨ st = CANCELLED ∨ st = TIMEOUT

instance (st : Nat) : Decidable (isTerminal st) := by
  unfold isTerminal; infer_instance

/-- The state invariant of the scheduler, read off the spec (§3
"Invariants", §4, §5): unique non-zero task ids; every instance state is
one of the four constants; instance ids are fresh and unique; a RUNNING
instance belongs to a registered task; the RUNNING count of a task never
exceeds its `max_parallel`; every wheel entry belongs to a registered
task; a RUNNING instance's deadline has not passed and a TIMEOUT
instance's deadline has. -/
structure Inv (s : Sched) : Prop where
  tasksNodup : (s.tasks.map Task.task_id).Nodup
  noZeroId : ∀ t ∈ s.tasks, t.task_id ≠ 0
  instValid : ∀ i ∈ s.instances,
    i.state = RUNNING ∨ i.state = COMPLETED ∨ i.state = CANCELLED ∨ i.state = TIMEOUT
  instIdLt : ∀ i ∈ s.instances, i.instance_id < s.next_instance_id
  instIdsNodup : (s.instances.map Instance.instance_id).Nodup
  runningReg : ∀ i ∈ s.instances, i.state = RUNNING → i.task_id ∈ taskIds s
  parCap : ∀ t ∈ s.tasks, runningCount s t.task_id ≤ t.max_parallel
  wheelReg : ∀ y, 0 < s.wheel.count y → y ∈ taskIds s
  runDeadline : s.stopped = false → ∀ i ∈ s.instances, i.state = RUNNING →
    ∀ d, i.deadline = some d → s.now ≤ d
  timeoutDeadline : ∀ i ∈ s.instances, i.state = TIMEOUT →
    ∃ d, i.deadline = some d ∧ d ≤ s.now

/-- A task id is absent from the scheduler: not registered and not in the
wheel.  This is the state `remove_task` leaves behind. -/
def Absent (s : Sched) (tid : Nat) : Prop :=
  tid ∉ taskIds s ∧ s.wheel.count tid = 0

/-- `true` iff the command registers a task with id `tid` (the only way a
removed id can come back). -/
def Cmd.addsId (c : Cmd) (tid : Nat) : Prop :=
  match c with
  | .add t => t.task_id = tid
  | _ => False

/-- An operation none of whose commands registers a task with id `tid`. -/
def Op.noAdd (o : Op) (tid : Nat) : Prop :=
  match o with
  | .tick cmds => ∀ c ∈ cmds, ¬c.addsId tid
  | _ => True

/-- The remaining firing budget of a task: its `remaining_count` when it is
registered (0 when the registration is gone). -/
def remPot (s : Sched) (tid : Nat) : Nat :=
  match lookupTask s tid with
  | some t => t.remaining_count.getD 0
  | none => 0

/-- The task registered under `tid` (if any) has a finite firing budget
(`Once` or `CountDown`; never `Repeated`). -/
def isCountdownAt (s : Sched) (tid : Nat) : Prop :=
  ∀ t, lookupTask s tid = some t → ∃ r, t.remaining_count = some r

/-- The instance ids present in the instance table. -/
def instIds (s : Sched) : List Nat :=
  s.instances.map Instance.instance_id

/-- Executable check that the task registered under `tid` (if any) has a
finite firing budget. -/
def cdFlag (s : Sched) (tid : Nat) : Bool :=
  match lookupTask s tid with
  | some t => t.remaining_count.isSome
  | none => true

/-- Scenario task for the countdown claims, from the `go_works` test: task
id 1, `CountDown(3, "0/2 * * * * * *")` (an instant every two seconds),
default `max_parallel = 1`, no timeout. -/
def taskCD : Task :=
  buildTask 1 (Frequency.CountDown 3) 1 none (fun i => some (2 * i + 2))

/-- Operation script for the countdown scenario: register the task, let it
fire three times with the body finishing between firings, and keep
ticking past the sufficient waiting period. -/
def opsCD : List Op :=
  [Op.tick [Cmd.add taskCD], Op.tick [], Op.tick [], Op.finish 1,
   Op.tick [], Op.tick [], Op.finish 2,
   Op.tick [], Op.tick [], Op.finish 3,
   Op.tick [], Op.tick [], Op.tick []]

/-- Scenario task for the advance claim, from the `test_advance` test:
`@yearly` cron (instants far in the future), `CountDown(3, …)`. -/
def taskAdv : Task :=
  buildTask 1 (Frequency.CountDown 3) 3 none (fun i => some (1000000 + i))

/-- Operation script for the advance scenario: register, then advance the
task once per tick; the fourth advance finds the countdown exhausted. -/
def opsAdv : List Op :=
  [Op.tick [Cmd.add taskAdv], Op.tick [Cmd.advance 1], Op.tick [Cmd.advance 1],
   Op.tick [Cmd.advance 1], Op.tick [Cmd.advance 1], Op.tick []]

/-- A task repeating forever, for exercising the registry. -/
def taskRep : Task := buildTask 1 Frequency.Repeated 1 none (fun i => some (i + 5))

/-- A two-shot task with `max_parallel = 1`. -/
def taskCap : Task := buildTask 1 (Frequency.CountDown 2) 1 none (fun i => some (i + 1))

/-- A RUNNING instance of task 1. -/
def instCap : Instance :=
  { instance_id := 1, task_id := 1, state := RUNNING, started_at := 0,
    deadline := none, signaled := false }

/-- A scheduler holding task 1 at its parallelism cap. -/
def schedCap : Sched :=
  { now := 0, tasks := [taskCap], wheel := mkWheel 4, instances := [instCap],
    chains := [(1, [1])], events := [], next_instance_id := 2, stopped := false }

/-- The `test_instance_timeout_state` task: secondly countdown with
`max_running_time = 2`. -/
def taskTO : Task := buildTask 1 (Frequency.CountDown 4) 3 (some 2) (fun i => some (i + 1))

/-- The timeout scenario run up to the tick at which the first instance's
deadline falls due. -/
def schedTO : Sched :=
  runOps (initSched 8) [Op.tick [Cmd.add taskTO], Op.tick [], Op.tick []]

/-- The first instance of the timeout scenario, still RUNNING with its
deadline at the current tick. -/
def instTO : Instance :=
  { instance_id := 1, task_id := 1, state := RUNNING, started_at := 1,
    deadline := some 3, signaled := false }

/-- The countdown scenario run until its first instance has completed. -/
def schedCD3 : Sched :=
  runOps (initSched 8) [Op.tick [Cmd.add taskCD], Op.tick [], Op.tick [], Op.finish 1]

/-- The completed first instance of the countdown scenario. -/
def instDone : Instance :=
  { instance_id := 1, task_id := 1, state := COMPLETED, started_at := 2,
    deadline := none, signaled := false }

theorem slotsCount_cons (sl : List Nat) (sls : List (List Nat)) (y : Nat) :
    slotsCount (sl :: sls) y = slotCount sl y + slotsCount sls y := by
  simp [slotsCount]

theorem slotsCount_set_append_le (sls : List (List Nat)) (i x y : Nat) :
    slotsCount (sls.set i ((sls.getD i []) ++ [x])) y
      ≤ slotsCount sls y + (if x = y then 1 else 0) := by
  induction sls generalizing i with
  | nil => simp [slotsCount]
  | cons h t ih =>
    cases i with
    | zero =>
      simp only [List.getD_cons_zero, List.set_cons_zero, slotsCount_cons,
        slotCount, List.countP_append, List.countP_singleton]
      by_cases hx : x = y <;> simp [hx] <;> omega
    | succ i =>
      simp only [List.getD_cons_succ, List.set_cons_succ, slotsCount_cons]
      have := ih i
      by_cases hx : x = y <;> simp [hx] at this ⊢ <;> omega

theorem slotsCount_set_empty_le (sls : List (List Nat)) (i y : Nat) :
    slotsCount (sls.set i []) y ≤ slotsCount sls y := by
  induction sls generalizing i with
  | nil => simp [slotsCount]
  | cons h t ih =>
    cases i with
    | zero =>
      simp only [List.set_cons_zero, slotsCount_cons]
      have : slotCount ([] : List Nat) y = 0 := rfl
      omega
    | succ i =>
      simp only [List.set_cons_succ, slotsCount_cons]
      have := ih i
      omega

theorem slotsCount_erase_self (sls : List (List Nat)) (tid : Nat) :
    slotsCount (sls.map (fun sl => sl.filter (fun x => !decide (x = tid)))) tid = 0 := by
  induction sls with
  | nil => simp [slotsCount]
  | cons h t ih =>
    simp only [List.map_cons, slotsCount_cons, ih]
    have : slotCount (h.filter (fun x => !decide (x = tid))) tid = 0 := by
      simp only [slotCount, List.countP_filter]
      exact List.countP_eq_zero.mpr (fun a _ => by simp)
    omega

theorem slotsCount_erase_le (sls : List (List Nat)) (tid y : Nat) :
    slotsCount (sls.map (fun sl => sl.filter (fun x => !decide (x = tid)))) y
      ≤ slotsCount sls y := by
  induction sls with
  | nil => simp [slotsCount]
  | cons h t ih =>
    simp only [List.map_cons, slotsCount_cons]
    have : slotCount (h.filter (fun x => !decide (x = tid))) y ≤ slotCount h y :=
      (List.filter_sublist h).countP_le _
    omega

theorem countP_filter_pair_le {α : Type} (l : List α) (p q1 q2 : α → Bool)
    (h : ∀ a, q1 a = true → q2 a = false) :
    (l.filter q1).countP p + (l.filter q2).countP p ≤ l.countP p := by
  induction l with
  | nil => simp
  | cons a t ih =>
    simp only [List.filter_cons]
    by_cases hq1 : q1 a = true
    · have hq2 : q2 a = false := h a hq1
      by_cases hp : p a = true <;>
        simp [hq1, hq2, List.countP_cons, hp] <;> omega
    · by_cases hq2 : q2 a = true <;> by_cases hp : p a = true <;>
        simp [hq1, hq2, List.countP_cons, hp] <;> omega

theorem slotsCount_promote_le (cur size now : Nat) (near : List (Nat × Nat)) :
    ∀ (sl0 : List (List Nat)) (y : Nat),
    slotsCount (near.foldl (promote cur size now) sl0) y
      ≤ slotsCount sl0 y + near.countP (fun e => decide (e.2 = y)) := by
  induction near with
  | nil => intro sl0 y; simp
  | cons e rest ih =>
    intro sl0 y
    have h1 := ih (promote cur size now sl0 e) y
    have h2 : slotsCount (promote cur size now sl0 e) y
        ≤ slotsCount sl0 y + (if e.2 = y then 1 else 0) :=
      slotsCount_set_append_le sl0 _ e.2 y
    simp only [List.foldl_cons, List.countP_cons]
    by_cases hx : e.2 = y <;> simp [hx] at h1 h2 ⊢ <;> omega

theorem mem_getD_slotsCount (sls : List (List Nat)) (i x : Nat)
    (h : x ∈ sls.getD i []) : 0 < slotsCount sls x := by
  induction sls generalizing i with
  | nil => simp at h
  | cons hd t ih =>
    cases i with
    | zero =>
      simp only [List.getD_cons_zero] at h
      have : 0 < slotCount hd x := List.countP_pos_iff.mpr ⟨x, h, by simp⟩
      simp only [slotsCount_cons]
      omega
    | succ i =>
      have := ih i (by simpa using h)
      simp only [slotsCount_cons]
      omega

theorem Wheel.count_remove_self (w : Wheel) (tid : Nat) :
    (w.remove tid).count tid = 0 := by
  simp only [Wheel.count, Wheel.remove, slotsCount_erase_self, Nat.zero_add]
  refine List.countP_eq_zero.mpr ?_
  intro e he
  have hmem := (List.mem_filter.mp he).2
  simp at hmem ⊢
  exact hmem

theorem Wheel.count_remove_le (w : Wheel) (tid y : Nat) :
    (w.remove tid).count y ≤ w.count y := by
  simp only [Wheel.count, Wheel.remove]
  have h1 := slotsCount_erase_le w.slots tid y
  have h2 : (w.overflow.filter (fun e => !decide (e.2 = tid))).countP
      (fun e => decide (e.2 = y)) ≤ w.overflow.countP (fun e => decide (e.2 = y)) :=
    (List.filter_sublist w.overflow).countP_le _
  omega

theorem Wheel.count_place_le (w : Wheel) (tid delay now y : Nat) :
    (w.place tid delay now).count y ≤ w.count y + (if tid = y then 1 else 0) := by
  simp only [Wheel.place]
  by_cases hd : delay < w.size
  · simp only [hd, if_true, Wheel.count]
    have := slotsCount_set_append_le w.slots ((w.current + delay) % w.size) tid y
    by_cases hx : tid = y <;> simp [hx] at this ⊢ <;> omega
  · simp only [hd, if_false, Wheel.count, List.countP_append, List.countP_singleton]
    by_cases hx : tid = y <;> simp [hx] <;> omega

theorem Wheel.count_insert_self (w : Wheel) (tid delay now : Nat) :
    (w.insert tid delay now).count tid ≤ 1 := by
  have h1 := Wheel.count_place_le (w.remove tid) tid delay now tid
  have h2 := Wheel.count_remove_self w tid
  simp [Wheel.insert] at h1 ⊢
  omega

theorem Wheel.count_insert_le_other (w : Wheel) (tid delay now y : Nat)
    (h : tid ≠ y) : (w.insert tid delay now).count y ≤ w.count y := by
  have h1 := Wheel.count_place_le (w.remove tid) tid delay now y
  have h2 := Wheel.count_remove_le w tid y
  simp [Wheel.insert, h] at h1 ⊢
  omega

theorem Wheel.count_popDue_le (w : Wheel) (now y : Nat) :
    ((w.popDue now).2).count y ≤ w.count y := by
  simp only [Wheel.popDue, Wheel.count]
  have h1 := slotsCount_promote_le w.current w.size now
    (w.overflow.filter (fun e => decide (now < e.1) && decide (e.1 < now + w.size)))
    (w.slots.set w.current []) y
  have h2 := slotsCount_set_empty_le w.slots w.current y
  have h3 := countP_filter_pair_le w.overflow (fun e => decide (e.2 = y))
    (fun e => decide (now < e.1) && decide (e.1 < now + w.size))
    (fun e => decide (now + w.size ≤ e.1))
    (by intro a ha; simp at ha ⊢; omega)
  omega

theorem Wheel.count_advanceCur (w : Wheel) (y : Nat) :
    (w.advanceCur).count y = w.count y := rfl

theorem Wheel.popDue_mem_count (w : Wheel) (now x : Nat)
    (h : x ∈ (w.popDue now).1) : 0 < w.count x := by
  simp only [Wheel.popDue, List.mem_append] at h
  rcases h with h | h
  · have := mem_getD_slotsCount w.slots w.current x h
    simp only [Wheel.count]
    omega
  · simp only [List.mem_map] at h
    obtain ⟨e, he, rfl⟩ := h
    have hmem := List.mem_of_mem_filter he
    have : 0 < w.overflow.countP (fun e2 => decide (e2.2 = e.2)) :=
      List.countP_pos_iff.mpr ⟨e, hmem, by simp⟩
    simp only [Wheel.count]
    omega

theorem applyWheelOp_single (w : Wheel) (o : WheelOp)
    (h : ∀ z, w.count z ≤ 1) : ∀ z, (applyWheelOp w o).count z ≤ 1 := by
  intro z
  cases o with
  | ins tid delay now =>
    by_cases hz : tid = z
    · subst hz; exact Wheel.count_insert_self w tid delay now
    · exact le_trans (Wheel.count_insert_le_other w tid delay now z hz) (h z)
  | pop now => exact le_trans (Wheel.count_popDue_le w now z) (h z)
  | rm tid => exact le_trans (Wheel.count_remove_le w tid z) (h z)
  | adv => rw [applyWheelOp, Wheel.count_advanceCur]; exact h z

theorem slotsCount_replicate_empty (n y : Nat) :
    slotsCount (List.replicate n []) y = 0 := by
  induction n with
  | zero => rfl
  | succ n ih => simpa [List.replicate_succ, slotsCount_cons, slotCount] using ih

theorem mkWheel_count (W y : Nat) : (mkWheel W).count y = 0 := by
  simp [mkWheel, Wheel.count, slotsCount_replicate_empty]

theorem getD_set_self (l : List (List Nat)) (i : Nat) (v : List Nat)
    (h : i < l.length) : (l.set i v).getD i [] = v := by
  induction l generalizing i with
  | nil => simp at h
  | cons a t ih =>
    cases i with
    | zero => simp
    | succ i => simpa using ih i (by simpa using h)

theorem find?_filter_of_imp {α : Type} (l : List α) (p q : α → Bool)
    (h : ∀ a, p a = true → q a = true) :
    (l.filter q).find? p = l.find? p := by
  induction l with
  | nil => rfl
  | cons a t ih =>
    by_cases hp : p a = true
    · have hq := h a hp
      simp [List.filter_cons, hq, List.find?_cons, hp]
    · by_cases hq : q a = true <;>
        simp [List.filter_cons, hq, List.find?_cons, hp, ih]

theorem find?_map_replace {α : Type} (l : List α) (p : α → Bool) (g : α → α)
    (h1 : ∀ a, p a = false → p (g a) = false)
    (h2 : ∀ a, p a = true → p (g a) = true) :
    ∀ t, l.find? p = some t → (l.map g).find? p = some (g t) := by
  induction l with
  | nil => intro t ht; simp at ht
  | cons a l ih =>
    intro t ht
    by_cases hp : p a = true
    · rw [List.find?_cons_of_pos _ hp] at ht
      cases ht
      rw [List.map_cons, List.find?_cons_of_pos _ (h2 a hp)]
    · rw [List.find?_cons_of_neg _ (by simpa using hp)] at ht
      rw [List.map_cons, List.find?_cons_of_neg _ (by simp [h1 a (by simpa using hp)])]
      exact ih t ht

theorem find?_map_other {α : Type} (l : List α) (p : α → Bool) (g : α → α)
    (h1 : ∀ a, p a = false → p (g a) = false)
    (h3 : ∀ a, p a = true → g a = a) :
    (l.map g).find? p = l.find? p := by
  induction l with
  | nil => rfl
  | cons a l ih =>
    by_cases hp : p a = true
    · rw [List.map_cons, h3 a hp, List.find?_cons_of_pos _ hp,
        List.find?_cons_of_pos _ hp]
    · rw [List.map_cons, List.find?_cons_of_neg _ (by simp [h1 a (by simpa using hp)]),
        List.find?_cons_of_neg _ (by simpa using hp)]
      exact ih

theorem find?_append_none {α : Type} (l1 l2 : List α) (p : α → Bool)
    (h : l1.find? p = none) : (l1 ++ l2).find? p = l2.find? p := by
  induction l1 with
  | nil => rfl
  | cons a t ih =>
    by_cases hp : p a = true
    · rw [List.find?_cons_of_pos _ hp] at h; cases h
    · rw [List.find?_cons_of_neg _ (by simpa using hp)] at h
      rw [List.cons_append, List.find?_cons_of_neg _ (by simpa using hp)]
      exact ih h

theorem find?_append_some {α : Type} (l1 l2 : List α) (p : α → Bool) (t : α)
    (h : l1.find? p = some t) : (l1 ++ l2).find? p = some t := by
  induction l1 with
  | nil => simp at h
  | cons a l ih =>
    by_cases hp : p a = true
    · rw [List.find?_cons_of_pos _ hp] at h
      rw [List.cons_append, List.find?_cons_of_pos _ hp]
      exact h
    · rw [List.find?_cons_of_neg _ (by simpa using hp)] at h
      rw [List.cons_append, List.find?_cons_of_neg _ (by simpa using hp)]
      exact ih h

theorem countP_map_ite_le {α : Type} (l : List α) (p : α → Bool) (c : α → Prop)
    [DecidablePred c] (g : α → α) (hg : ∀ a, p (g a) = true → p a = true) :
    (l.map (fun a => if c a then g a else a)).countP p ≤ l.countP p := by
  rw [List.countP_map]
  refine List.countP_mono_left ?_
  intro x _ hx
  simp only [Function.comp] at hx
  by_cases hc : c x
  · rw [if_pos hc] at hx
    exact hg x hx
  · rwa [if_neg hc] at hx

theorem countP_map_ite_lt {α : Type} (l : List α) (p : α → Bool) (c : α → Prop)
    [DecidablePred c] (g : α → α) (hg : ∀ a, p (g a) = true → p a = true)
    (w : α) (hw : w ∈ l) (hwp : p w = true) (hwc : c w)
    (hwg : p (g w) = false) :
    (l.map (fun a => if c a then g a else a)).countP p < l.countP p := by
  induction l with
  | nil => simp at hw
  | cons a t ih =>
    rcases List.mem_cons.mp hw with rfl | hw2
    · have h1 := countP_map_ite_le t p c g hg
      simp only [List.map_cons, if_pos hwc, List.countP_cons]
      simp [hwg, hwp, -List.countP_map]
      omega
    · have h1 := ih hw2
      simp only [List.map_cons, List.countP_cons]
      have h2 : (if p (if c a then g a else a) = true then 1 else 0)
          ≤ (if p a = true then 1 else 0) := by
        by_cases hc : c a
        · by_cases hpg : p (g a) = true
          · simp [if_pos hc, hpg, hg a hpg]
          · simp [if_pos hc, hpg]
        · simp [if_neg hc]
      omega

theorem map_ids_ite {α β : Type} (l : List α) (c : α → Prop) [DecidablePred c]
    (g : α → α) (f : α → β) (hg : ∀ a, c a → f (g a) = f a) :
    (l.map (fun a => if c a then g a else a)).map f = l.map f := by
  rw [List.map_map]
  refine List.map_congr_left ?_
  intro a _
  by_cases hc : c a
  · simp [if_pos hc, hg a hc]
  · simp [if_neg hc]

theorem mem_map_ite_of_not {α : Type} (l : List α) (c : α → Prop) [DecidablePred c]
    (g : α → α) (a : α) (ha : a ∈ l) (hc : ¬c a) :
    a ∈ l.map (fun x => if c x then g x else x) := by
  refine List.mem_map.mpr ⟨a, ha, ?_⟩
  simp [if_neg hc]

theorem mem_map_ite_of_yes {α : Type} (l : List α) (c : α → Prop) [DecidablePred c]
    (g : α → α) (a : α) (ha : a ∈ l) (hc : c a) :
    g a ∈ l.map (fun x => if c x then g x else x) := by
  refine List.mem_map.mpr ⟨a, ha, ?_⟩
  simp [if_pos hc]

theorem startedCount_append (evs l : List Event) (tid : Nat) :
    startedCount (evs ++ l) tid = startedCount evs tid + startedCount l tid := by
  simp [startedCount, List.countP_append]

theorem startedCount_cancelled_map {α : Type} (l : List α) (f : α → Nat) (x tid : Nat) :
    startedCount (l.map (fun i => Event.instanceCancelled x (f i))) tid = 0 := by
  simp only [startedCount]
  refine List.countP_eq_zero.mpr ?_
  intro e he
  obtain ⟨i, _, rfl⟩ := List.mem_map.mp he
  simp

theorem startedCount_timeout_map {α : Type} (l : List α) (f g : α → Nat) (tid : Nat) :
    startedCount (l.map (fun i => Event.instanceTimeout (f i) (g i))) tid = 0 := by
  simp only [startedCount]
  refine List.countP_eq_zero.mpr ?_
  intro e he
  obtain ⟨i, _, rfl⟩ := List.mem_map.mp he
  simp

theorem inv_instmap (s : Sched) (c : Instance → Prop) [DecidablePred c]
    (g : Instance → Instance) (evs2 : List Event)
    (hid : ∀ j, (g j).instance_id = j.instance_id)
    (hdl : ∀ j, (g j).deadline = j.deadline)
    (hst : ∀ j, (g j).state = COMPLETED ∨ (g j).state = CANCELLED ∨ (g j).state = TIMEOUT)
    (htm : ∀ j ∈ s.instances, c j → (g j).state = TIMEOUT →
      ∃ d, j.deadline = some d ∧ d ≤ s.now)
    (hinv : Inv s) :
    Inv { s with
      instances := s.instances.map (fun j => if c j then g j else j),
      events := s.events ++ evs2 } := by
  have hgnr : ∀ j, (g j).state ≠ RUNNING := by
    intro j
    rcases hst j with h | h | h <;> rw [h] <;> decide
  have hrun : ∀ tid, ∀ a : Instance,
      (g a).isRunningOf tid = true → a.isRunningOf tid = true := by
    intro tid a ha
    simp only [Instance.isRunningOf, Bool.and_eq_true, decide_eq_true_eq] at ha
    exact absurd ha.2 (hgnr a)
  refine ⟨hinv.tasksNodup, hinv.noZeroId, ?_, ?_, ?_, ?_, ?_, hinv.wheelReg, ?_, ?_⟩
  · intro i' hi'
    obtain ⟨j, hj, rfl⟩ := List.mem_map.mp hi'
    by_cases hc : c j
    · rw [if_pos hc]
      rcases hst j with h | h | h
      · exact Or.inr (Or.inl h)
      · exact Or.inr (Or.inr (Or.inl h))
      · exact Or.inr (Or.inr (Or.inr h))
    · rw [if_neg hc]
      exact hinv.instValid j hj
  · intro i' hi'
    obtain ⟨j, hj, rfl⟩ := List.mem_map.mp hi'
    by_cases hc : c j
    · rw [if_pos hc]
      show (g j).instance_id < s.next_instance_id
      rw [hid j]
      exact hinv.instIdLt j hj
    · rw [if_neg hc]
      exact hinv.instIdLt j hj
  · show ((s.instances.map fun j => if c j then g j else j).map Instance.instance_id).Nodup
    rw [map_ids_ite s.instances c g Instance.instance_id (fun a _ => hid a)]
    exact hinv.instIdsNodup
  · intro i' hi' hr
    obtain ⟨j, hj, rfl⟩ := List.mem_map.mp hi'
    by_cases hc : c j
    · rw [if_pos hc] at hr
      exact absurd hr (hgnr j)
    · rw [if_neg hc] at hr ⊢
      exact hinv.runningReg j hj hr
  · intro u hu
    have h1 : (s.instances.map fun j => if c j then g j else j).countP
        (fun i => i.isRunningOf u.task_id) ≤
        s.instances.countP (fun i => i.isRunningOf u.task_id) :=
      countP_map_ite_le s.instances _ c g (hrun u.task_id)
    exact le_trans h1 (hinv.parCap u hu)
  · intro hstop i' hi' hr d hd
    obtain ⟨j, hj, rfl⟩ := List.mem_map.mp hi'
    by_cases hc : c j
    · rw [if_pos hc] at hr
      exact absurd hr (hgnr j)
    · rw [if_neg hc] at hr hd
      exact hinv.runDeadline hstop j hj hr d hd
  · intro i' hi' ht
    obtain ⟨j, hj, rfl⟩ := List.mem_map.mp hi'
    by_cases hc : c j
    · rw [if_pos hc] at ht ⊢
      obtain ⟨d, hjd, hdn⟩ := htm j hj hc ht
      exact ⟨d, by rw [hdl j]; exact hjd, hdn⟩
    · rw [if_neg hc] at ht ⊢
      exact hinv.timeoutDeadline j hj ht

theorem inv_cancelInstance (s : Sched) (iid : Nat) (hinv : Inv s) :
    Inv (cancelInstance s iid).1 := by
  unfold cancelInstance
  cases hf : s.instances.find? (fun i => decide (i.instance_id = iid)) with
  | none => simpa [hf] using hinv
  | some i =>
    by_cases hr : i.state = RUNNING
    · simp only [hf, hr, if_true]
      exact inv_instmap s (fun j => j.instance_id = iid)
        (fun j => { j with state := CANCELLED, signaled := true }) _
        (fun j => rfl) (fun j => rfl)
        (fun j => Or.inr (Or.inl rfl))
        (fun j _ _ ht => by simp [CANCELLED, TIMEOUT] at ht) hinv
    · simpa [hf, hr] using hinv

theorem inv_finishInstance (s : Sched) (iid : Nat) (hinv : Inv s) :
    Inv (finishInstance s iid) := by
  unfold finishInstance
  cases hf : s.instances.find? (fun i => decide (i.instance_id = iid)) with
  | none => simpa [hf] using hinv
  | some i =>
    by_cases hr : i.state = RUNNING
    · simp only [hf, hr, if_true]
      exact inv_instmap s (fun j => j.instance_id = iid)
        (fun j => { j with state := COMPLETED }) _
        (fun j => rfl) (fun j => rfl)
        (fun j => Or.inl rfl)
        (fun j _ _ ht => by simp [COMPLETED, TIMEOUT] at ht) hinv
    · simpa [hf, hr] using hinv

theorem inv_timeoutScan (s : Sched) (hinv : Inv s) : Inv (timeoutScan s) := by
  unfold timeoutScan
  exact inv_instmap s (fun i => i.timedOutAt s.now = true)
    (fun i => { i with state := TIMEOUT, signaled := true }) _
    (fun j => rfl) (fun j => rfl)
    (fun j => Or.inr (Or.inr rfl))
    (fun j _ hc _ => by
      simp only [Instance.timedOutAt, Bool.and_eq_true, decide_eq_true_eq] at hc
      exact ⟨s.now, hc.2, le_refl s.now⟩) hinv

theorem inv_advanceTask (s : Sched) (tid : Nat) (hinv : Inv s) :
    Inv (advanceTask s tid) := by
  unfold advanceTask
  by_cases hm : tid ∈ taskIds s
  · rw [if_pos hm]
    refine ⟨hinv.tasksNodup, hinv.noZeroId, hinv.instValid, hinv.instIdLt,
      hinv.instIdsNodup, hinv.runningReg, hinv.parCap, ?_,
      hinv.runDeadline, hinv.timeoutDeadline⟩
    intro y hy
    by_cases hz : tid = y
    · subst hz; exact hm
    · exact hinv.wheelReg y
        (lt_of_lt_of_le hy (Wheel.count_insert_le_other s.wheel tid 0 s.now y hz))
  · rw [if_neg hm]
    exact hinv

theorem inv_stopFlag (s : Sched) (hinv : Inv s) : Inv { s with stopped := true } := by
  refine ⟨hinv.tasksNodup, hinv.noZeroId, hinv.instValid, hinv.instIdLt,
    hinv.instIdsNodup, hinv.runningReg, hinv.parCap, hinv.wheelReg, ?_,
    hinv.timeoutDeadline⟩
  intro hstop
  simp at hstop

theorem addTask_fst (s : Sched) (t : Task) :
    (addTask s t).1 = s ∨
    (s.stopped = false ∧ t.task_id ≠ 0 ∧ t.task_id ∉ taskIds s ∧
      ∃ inst, t.sched t.cursor = some inst ∧
        (addTask s t).1 = { s with
          tasks := s.tasks ++ [{ t with cursor := t.cursor + 1 }],
          wheel := s.wheel.insert t.task_id (inst - s.now) s.now,
          chains := s.chains ++ [(t.task_id, [])] }) := by
  unfold addTask
  by_cases h1 : s.stopped = true
  · left; simp [h1]
  · by_cases h2 : t.task_id = 0
    · left; simp [h1, h2]
    · by_cases h3 : t.task_id ∈ taskIds s
      · left; simp [h1, h2, h3]
      · cases hs : t.sched t.cursor with
        | none => left; simp [h1, h2, h3, hs]
        | some inst =>
          right
          refine ⟨by simpa using h1, h2, h3, inst, rfl, ?_⟩
          simp [h1, h2, h3]

theorem addTask_err_unchanged (s : Sched) (t : Task) (e : AddError)
    (h : (addTask s t).2 = some e) : (addTask s t).1 = s := by
  unfold addTask at h ⊢
  by_cases h1 : s.stopped = true
  · simp [h1]
  · by_cases h2 : t.task_id = 0
    · simp [h1, h2]
    · by_cases h3 : t.task_id ∈ taskIds s
      · simp [h1, h2, h3]
      · cases hs : t.sched t.cursor with
        | none => simp [h1, h2, h3, hs]
        | some inst => simp [h1, h2, h3, hs] at h

theorem runningCount_zero_of_not_mem (s : Sched) (tid : Nat) (hinv : Inv s)
    (hmem : tid ∉ taskIds s) : runningCount s tid = 0 := by
  refine List.countP_eq_zero.mpr ?_
  intro i hi hp
  simp only [Instance.isRunningOf, Bool.and_eq_true, decide_eq_true_eq] at hp
  exact hmem (hp.1 ▸ hinv.runningReg i hi hp.2)

theorem inv_addTask (s : Sched) (t : Task) (hinv : Inv s) :
    Inv (addTask s t).1 := by
  rcases addTask_fst s t with h | ⟨hstop, h0, hmem, inst, hs, h⟩
  · rw [h]; exact hinv
  · rw [h]
    have hids : taskIds { s with
        tasks := s.tasks ++ [{ t with cursor := t.cursor + 1 }],
        wheel := s.wheel.insert t.task_id (inst - s.now) s.now,
        chains := s.chains ++ [(t.task_id, [])] } =
        taskIds s ++ [t.task_id] := by
      simp [taskIds]
    refine ⟨?_, ?_, hinv.instValid, hinv.instIdLt, hinv.instIdsNodup, ?_, ?_, ?_,
      ?_, hinv.timeoutDeadline⟩
    · show ((s.tasks ++ [{ t with cursor := t.cursor + 1 }]).map Task.task_id).Nodup
      rw [List.map_append]
      rw [List.nodup_append]
      refine ⟨hinv.tasksNodup, List.nodup_singleton _, ?_⟩
      intro x hx
      simp only [List.map_cons, List.map_nil, List.mem_singleton]
      intro hx2
      exact hmem (hx2 ▸ hx)
    · intro u hu
      rcases List.mem_append.mp hu with hu | hu
      · exact hinv.noZeroId u hu
      · rw [List.mem_singleton.mp hu]
        exact h0
    · intro i hi hr
      rw [hids]
      exact List.mem_append_left _ (hinv.runningReg i hi hr)
    · intro u hu
      rcases List.mem_append.mp hu with hu | hu
      · exact hinv.parCap u hu
      · rw [List.mem_singleton.mp hu]
        show runningCount s t.task_id ≤ t.max_parallel
        rw [runningCount_zero_of_not_mem s t.task_id hinv hmem]
        exact Nat.zero_le _
    · intro y hy
      rw [hids]
      by_cases hz : t.task_id = y
      · subst hz; exact List.mem_append_right _ (List.mem_singleton_self _)
      · refine List.mem_append_left _ (hinv.wheelReg y ?_)
        exact lt_of_lt_of_le hy
          (Wheel.count_insert_le_other s.wheel t.task_id (inst - s.now) s.now y hz)
    · intro hst i hi hr d hd
      exact hinv.runDeadline hst i hi hr d hd

theorem mem_taskIds_filter (s : Sched) (y tid : Nat) (hy : y ∈ taskIds s)
    (hne : y ≠ tid) :
    y ∈ (s.tasks.filter (fun u => !decide (u.task_id = tid))).map Task.task_id := by
  obtain ⟨u, hu, rfl⟩ := List.mem_map.mp hy
  refine List.mem_map.mpr ⟨u, ?_, rfl⟩
  refine List.mem_filter.mpr ⟨hu, ?_⟩
  simpa using hne

theorem inv_removeTask (s : Sched) (tid : Nat) (hinv : Inv s) :
    Inv (removeTask s tid) := by
  unfold removeTask
  by_cases hm : tid ∈ taskIds s
  · rw [if_pos hm]
    have hrun : ∀ z : Nat, ∀ a : Instance,
        ({ a with state := CANCELLED, signaled := true } : Instance).isRunningOf z
          = true → a.isRunningOf z = true := by
      intro z a ha
      simp only [Instance.isRunningOf, Bool.and_eq_true, decide_eq_true_eq] at ha
      exact absurd ha.2 (by decide)
    refine ⟨?_, ?_, ?_, ?_, ?_, ?_, ?_, ?_, ?_, ?_⟩
    · show ((s.tasks.filter _).map Task.task_id).Nodup
      exact hinv.tasksNodup.sublist ((List.filter_sublist s.tasks).map Task.task_id)
    · intro u hu
      exact hinv.noZeroId u (List.mem_of_mem_filter hu)
    · intro i' hi'
      obtain ⟨j, hj, rfl⟩ := List.mem_map.mp hi'
      by_cases hc : j.isRunningOf tid = true
      · rw [if_pos hc]
        exact Or.inr (Or.inr (Or.inl rfl))
      · rw [if_neg hc]
        exact hinv.instValid j hj
    · intro i' hi'
      obtain ⟨j, hj, rfl⟩ := List.mem_map.mp hi'
      by_cases hc : j.isRunningOf tid = true
      · rw [if_pos hc]
        exact hinv.instIdLt j hj
      · rw [if_neg hc]
        exact hinv.instIdLt j hj
    · show ((s.instances.map _).map Instance.instance_id).Nodup
      rw [map_ids_ite s.instances (fun i => i.isRunningOf tid = true)
        (fun i => { i with state := CANCELLED, signaled := true })
        Instance.instance_id (fun a _ => rfl)]
      exact hinv.instIdsNodup
    · intro i' hi' hr
      obtain ⟨j, hj, rfl⟩ := List.mem_map.mp hi'
      by_cases hc : j.isRunningOf tid = true
      · rw [if_pos hc] at hr
        simp [CANCELLED, RUNNING] at hr
      · rw [if_neg hc] at hr ⊢
        have hjr := hinv.runningReg j hj hr
        have hne : j.task_id ≠ tid := by
          intro heq
          exact hc (by simp [Instance.isRunningOf, heq, hr])
        exact mem_taskIds_filter s j.task_id tid hjr hne
    · intro u hu
      have hu2 := List.mem_of_mem_filter hu
      have h1 : (s.instances.map fun j =>
          if j.isRunningOf tid = true
          then { j with state := CANCELLED, signaled := true } else j).countP
          (fun i => i.isRunningOf u.task_id) ≤
          s.instances.countP (fun i => i.isRunningOf u.task_id) :=
        countP_map_ite_le s.instances _ _ _ (hrun u.task_id)
      exact le_trans h1 (hinv.parCap u hu2)
    · intro y hy
      have hy2 : 0 < s.wheel.count y :=
        lt_of_lt_of_le hy (Wheel.count_remove_le s.wheel tid y)
      have hne : y ≠ tid := by
        intro heq
        subst heq
        rw [Wheel.count_remove_self s.wheel y] at hy
        exact Nat.lt_irrefl 0 hy
      exact mem_taskIds_filter s y tid (hinv.wheelReg y hy2) hne
    · intro hst i' hi' hr d hd
      obtain ⟨j, hj, rfl⟩ := List.mem_map.mp hi'
      by_cases hc : j.isRunningOf tid = true
      · rw [if_pos hc] at hr
        simp [CANCELLED, RUNNING] at hr
      · rw [if_neg hc] at hr hd
        exact hinv.runDeadline hst j hj hr d hd
    · intro i' hi' ht
      obtain ⟨j, hj, rfl⟩ := List.mem_map.mp hi'
      by_cases hc : j.isRunningOf tid = true
      · rw [if_pos hc] at ht
        simp [CANCELLED, TIMEOUT] at ht
      · rw [if_neg hc] at ht ⊢
        exact hinv.timeoutDeadline j hj ht
  · rw [if_neg hm]
    exact hinv

theorem inv_events (s : Sched) (l : List Event) (hinv : Inv s) :
    Inv { s with events := s.events ++ l } :=
  ⟨hinv.tasksNodup, hinv.noZeroId, hinv.instValid, hinv.instIdLt,
   hinv.instIdsNodup, hinv.runningReg, hinv.parCap, hinv.wheelReg,
   hinv.runDeadline, hinv.timeoutDeadline⟩

theorem runningCount_spawn (s : Sched) (t : Task) (tid : Nat) :
    runningCount (spawnInstance s t) tid =
      runningCount s tid + (if t.task_id = tid then 1 else 0) := by
  simp only [runningCount, spawnInstance, List.countP_append, List.countP_singleton,
    Instance.isRunningOf]
  by_cases h : t.task_id = tid <;> simp [h]

theorem inv_spawnInstance (s : Sched) (t : Task) (hinv : Inv s)
    (ht : t ∈ s.tasks) (hcap : runningCount s t.task_id < t.max_parallel) :
    Inv (spawnInstance s t) := by
  refine ⟨hinv.tasksNodup, hinv.noZeroId, ?_, ?_, ?_, ?_, ?_, hinv.wheelReg, ?_, ?_⟩
  · intro i hi
    rcases List.mem_append.mp hi with hi | hi
    · exact hinv.instValid i hi
    · rw [List.mem_singleton.mp hi]
      exact Or.inl rfl
  · intro i hi
    rcases List.mem_append.mp hi with hi | hi
    · exact Nat.lt_trans (hinv.instIdLt i hi) (Nat.lt_succ_self _)
    · rw [List.mem_singleton.mp hi]
      exact Nat.lt_succ_self _
  · show ((s.instances ++ [_]).map Instance.instance_id).Nodup
    rw [List.map_append, List.nodup_append]
    refine ⟨hinv.instIdsNodup, List.nodup_singleton _, ?_⟩
    intro x hx
    simp only [List.map_cons, List.map_nil, List.mem_singleton]
    intro hx2
    obtain ⟨j, hj, rfl⟩ := List.mem_map.mp hx
    have := hinv.instIdLt j hj
    omega
  · intro i hi hr
    rcases List.mem_append.mp hi with hi | hi
    · exact hinv.runningReg i hi hr
    · rw [List.mem_singleton.mp hi]
      exact List.mem_map.mpr ⟨t, ht, rfl⟩
  · intro u hu
    show runningCount (spawnInstance s t) u.task_id ≤ u.max_parallel
    rw [runningCount_spawn]
    by_cases he : t.task_id = u.task_id
    · have : u = t := List.inj_on_of_nodup_map hinv.tasksNodup hu ht he.symm
      subst this
      simp only [he, if_true]
      omega
    · simp only [he, if_false]
      exact le_trans (Nat.le_add_right _ _)
        (by rw [Nat.add_zero]; exact hinv.parCap u hu)
  · intro hst i hi hr d hd
    rcases List.mem_append.mp hi with hi | hi
    · exact hinv.runDeadline hst i hi hr d hd
    · rw [List.mem_singleton.mp hi] at hd
      cases hmrt : t.max_running_time with
      | none => rw [hmrt] at hd; simp at hd
      | some k =>
        rw [hmrt] at hd
        simp at hd
        show s.now ≤ d
        omega
  · intro i hi hit
    rcases List.mem_append.mp hi with hi | hi
    · exact hinv.timeoutDeadline i hi hit
    · rw [List.mem_singleton.mp hi] at hit
      simp [RUNNING, TIMEOUT] at hit

theorem inv_tasksReplace (s : Sched) (tid : Nat) (t2 : Task)
    (hid : t2.task_id = tid) (h0 : t2.task_id ≠ 0)
    (hcap : runningCount s tid ≤ t2.max_parallel) (hinv : Inv s) :
    Inv { s with tasks := s.tasks.map (fun u => if u.task_id = tid then t2 else u) } := by
  have hids : ((s.tasks.map (fun u => if u.task_id = tid then t2 else u)).map
      Task.task_id) = s.tasks.map Task.task_id :=
    map_ids_ite s.tasks (fun u => u.task_id = tid) (fun _ => t2) Task.task_id
      (fun a ha => hid.trans ha.symm)
  have hids2 : taskIds { s with
      tasks := s.tasks.map (fun u => if u.task_id = tid then t2 else u) } =
      taskIds s := hids
  refine ⟨?_, ?_, hinv.instValid, hinv.instIdLt, hinv.instIdsNodup, ?_, ?_, ?_,
    hinv.runDeadline, hinv.timeoutDeadline⟩
  · show ((s.tasks.map fun u => if u.task_id = tid then t2 else u).map Task.task_id).Nodup
    rw [hids]
    exact hinv.tasksNodup
  · intro u hu
    obtain ⟨v, hv, rfl⟩ := List.mem_map.mp hu
    by_cases hc : v.task_id = tid
    · rw [if_pos hc]
      exact h0
    · rw [if_neg hc]
      exact hinv.noZeroId v hv
  · intro i hi hr
    rw [hids2]
    exact hinv.runningReg i hi hr
  · intro u hu
    obtain ⟨v, hv, rfl⟩ := List.mem_map.mp hu
    by_cases hc : v.task_id = tid
    · rw [if_pos hc]
      show runningCount s t2.task_id ≤ t2.max_parallel
      rw [hid]
      exact hcap
    · rw [if_neg hc]
      exact hinv.parCap v hv
  · intro y hy
    rw [hids2]
    exact hinv.wheelReg y hy

theorem inv_wheelInsert (s : Sched) (tid delay : Nat) (hmem : tid ∈ taskIds s)
    (hinv : Inv s) : Inv { s with wheel := s.wheel.insert tid delay s.now } := by
  refine ⟨hinv.tasksNodup, hinv.noZeroId, hinv.instValid, hinv.instIdLt,
    hinv.instIdsNodup, hinv.runningReg, hinv.parCap, ?_,
    hinv.runDeadline, hinv.timeoutDeadline⟩
  intro y hy
  by_cases hz : tid = y
  · subst hz; exact hmem
  · exact hinv.wheelReg y
      (lt_of_lt_of_le hy (Wheel.count_insert_le_other s.wheel tid delay s.now y hz))

theorem inv_dispatchTail (s1 : Sched) (tid : Nat) (t : Task)
    (htid : t.task_id = tid) (h0 : t.task_id ≠ 0)
    (hcap1 : runningCount s1 tid ≤ t.max_parallel)
    (hmem1 : tid ∈ taskIds s1) (hinv1 : Inv s1) :
    Inv (
      if decRemaining t.remaining_count = some 0 then
        { s1 with tasks := s1.tasks.map (fun u => if u.task_id = tid then { t with cursor := t.cursor + 1, remaining_count := decRemaining t.remaining_count } else u) }
      else
        match t.sched t.cursor with
        | none =>
          { s1 with tasks := s1.tasks.map (fun u => if u.task_id = tid then { t with cursor := t.cursor + 1, remaining_count := decRemaining t.remaining_count } else u) }
        | some inst =>
          { s1 with
            tasks := s1.tasks.map (fun u => if u.task_id = tid then { t with cursor := t.cursor + 1, remaining_count := decRemaining t.remaining_count } else u),
            wheel := s1.wheel.insert tid (max (inst - s1.now) 1) s1.now }) := by
  have hinv2 := inv_tasksReplace s1 tid
    { t with cursor := t.cursor + 1, remaining_count := decRemaining t.remaining_count }
    htid h0 hcap1 hinv1
  have ht2ids : taskIds { s1 with tasks := s1.tasks.map (fun u => if u.task_id = tid then { t with cursor := t.cursor + 1, remaining_count := decRemaining t.remaining_count } else u) } = taskIds s1 :=
    map_ids_ite s1.tasks (fun u => u.task_id = tid) _ Task.task_id
      (fun a ha => htid.trans ha.symm)
  by_cases hz : decRemaining t.remaining_count = some 0
  · rw [if_pos hz]
    exact hinv2
  · rw [if_neg hz]
    cases hs : t.sched t.cursor with
    | none => exact hinv2
    | some inst =>
      exact inv_wheelInsert
        { s1 with tasks := s1.tasks.map (fun u => if u.task_id = tid then { t with cursor := t.cursor + 1, remaining_count := decRemaining t.remaining_count } else u) }
        tid (max (inst - s1.now) 1) (by rw [ht2ids]; exact hmem1) hinv2

theorem inv_dispatchOne (s : Sched) (tid : Nat) (hinv : Inv s) :
    Inv (dispatchOne s tid) := by
  cases hl : lookupTask s tid with
  | none => simpa [dispatchOne, hl] using hinv
  | some t =>
    have ht : t ∈ s.tasks := List.mem_of_find?_eq_some hl
    have htid : t.task_id = tid := by simpa using List.find?_some hl
    have hmem : tid ∈ taskIds s := List.mem_map.mpr ⟨t, ht, htid⟩
    have h0 : t.task_id ≠ 0 := hinv.noZeroId t ht
    by_cases hret : t.remaining_count = some 0
    · simpa [dispatchOne, hl, hret] using hinv
    · simp only [dispatchOne, hl]
      rw [if_neg hret]
      by_cases hcap : t.max_parallel ≤ runningCount s tid
      · simp only [if_pos hcap]
        refine inv_dispatchTail
          { s with events := s.events ++ [Event.parallelLimitReached tid] }
          tid t htid h0 ?_ ?_ ?_
        · show runningCount s tid ≤ t.max_parallel
          have := hinv.parCap t ht
          rwa [htid] at this
        · exact hmem
        · exact inv_events s _ hinv
      · simp only [if_neg hcap]
        have hlt : runningCount s t.task_id < t.max_parallel := by
          rw [htid]; exact Nat.lt_of_not_le hcap
        refine inv_dispatchTail (spawnInstance s t) tid t htid h0 ?_ hmem
          (inv_spawnInstance s t hinv ht hlt)
        rw [runningCount_spawn, htid]
        simp only [if_true]
        have hlt2 : runningCount s tid < t.max_parallel := htid ▸ hlt
        simp
        omega

theorem foldl_preserve {α β : Type} (P : α → Prop) (f : α → β → α)
    (h : ∀ a b, P a → P (f a b)) :
    ∀ (l : List β) (a : α), P a → P (l.foldl f a) := by
  intro l
  induction l with
  | nil => intro a ha; exact ha
  | cons b t ih => intro a ha; exact ih _ (h a b ha)

theorem timeoutScan_running (s : Sched) :
    ∀ i ∈ (timeoutScan s).instances, i.state = RUNNING →
      i ∈ s.instances ∧ i.deadline ≠ some s.now := by
  intro i hi hr
  unfold timeoutScan at hi
  obtain ⟨j, hj, rfl⟩ := List.mem_map.mp hi
  by_cases hc : j.timedOutAt s.now = true
  · rw [if_pos hc] at hr
    simp [TIMEOUT, RUNNING] at hr
  · rw [if_neg hc] at hr ⊢
    refine ⟨hj, ?_⟩
    intro hd
    exact hc (by simp [Instance.timedOutAt, hr, hd])

theorem inv_stoppedTick (s : Sched) (hst : s.stopped = true) (hinv : Inv s) :
    Inv { s with now := s.now + 1 } := by
  refine ⟨hinv.tasksNodup, hinv.noZeroId, hinv.instValid, hinv.instIdLt,
    hinv.instIdsNodup, hinv.runningReg, hinv.parCap, hinv.wheelReg, ?_, ?_⟩
  · intro hstop
    rw [show ({ s with now := s.now + 1 } : Sched).stopped = s.stopped from rfl, hst]
      at hstop
    cases hstop
  · intro i hi ht
    obtain ⟨d, hd, hdn⟩ := hinv.timeoutDeadline i hi ht
    exact ⟨d, hd, Nat.le_trans hdn (Nat.le_succ _)⟩

theorem inv_wheelSwap (s : Sched) (w2 : Wheel)
    (hw : ∀ y, w2.count y ≤ s.wheel.count y) (hinv : Inv s) :
    Inv { s with wheel := w2 } := by
  refine ⟨hinv.tasksNodup, hinv.noZeroId, hinv.instValid, hinv.instIdLt,
    hinv.instIdsNodup, hinv.runningReg, hinv.parCap, ?_,
    hinv.runDeadline, hinv.timeoutDeadline⟩
  intro y hy
  exact hinv.wheelReg y (lt_of_lt_of_le hy (hw y))

theorem inv_tickEnd (s : Sched)
    (hnd : ∀ i ∈ s.instances, i.state = RUNNING → i.deadline ≠ some s.now)
    (hinv : Inv s) :
    Inv { s with now := s.now + 1, wheel := s.wheel.advanceCur } := by
  refine ⟨hinv.tasksNodup, hinv.noZeroId, hinv.instValid, hinv.instIdLt,
    hinv.instIdsNodup, hinv.runningReg, hinv.parCap, ?_, ?_, ?_⟩
  · intro y hy
    rw [show ({ s with now := s.now + 1, wheel := s.wheel.advanceCur } : Sched).wheel
        = s.wheel.advanceCur from rfl, Wheel.count_advanceCur] at hy
    exact hinv.wheelReg y hy
  · intro hstop i hi hr d hd
    have h1 := hinv.runDeadline hstop i hi hr d hd
    have h2 : d ≠ s.now := fun h => hnd i hi hr (h ▸ hd)
    show s.now + 1 ≤ d
    omega
  · intro i hi ht
    obtain ⟨d, hd, hdn⟩ := hinv.timeoutDeadline i hi ht
    exact ⟨d, hd, Nat.le_trans hdn (Nat.le_succ _)⟩

theorem inv_applyCmd (s : Sched) (c : Cmd) (hinv : Inv s) : Inv (applyCmd s c) := by
  cases c with
  | add t => exact inv_addTask s t hinv
  | remove tid => exact inv_removeTask s tid hinv
  | advance tid => exact inv_advanceTask s tid hinv
  | cancelInst iid => exact inv_cancelInstance s iid hinv
  | stop => exact inv_stopFlag s hinv

theorem inv_applyCmds (s : Sched) (cmds : List Cmd) (hinv : Inv s) :
    Inv (applyCmds s cmds) :=
  foldl_preserve Inv applyCmd inv_applyCmd cmds s hinv

theorem inv_dispatchStep (s0 : Sched) (hinv0 : Inv s0) : Inv (dispatchStep s0) := by
  unfold dispatchStep
  exact foldl_preserve Inv dispatchOne inv_dispatchOne _ _
    (inv_wheelSwap _ _ (fun y => Wheel.count_popDue_le _ _ y) hinv0)

theorem inv_tickFn (s : Sched) (cmds : List Cmd) (hinv : Inv s) :
    Inv (tickFn s cmds) := by
  unfold tickFn
  have hinv0 := inv_applyCmds s cmds hinv
  by_cases hst : (applyCmds s cmds).stopped = true
  · rw [if_pos hst]
    exact inv_stoppedTick _ hst hinv0
  · rw [if_neg hst]
    have hinv3 := inv_timeoutScan _ (inv_dispatchStep _ hinv0)
    refine inv_tickEnd _ ?_ hinv3
    intro i hi hr
    have h2 := timeoutScan_running (dispatchStep (applyCmds s cmds)) i hi hr
    exact h2.2

theorem inv_applyOp (s : Sched) (o : Op) (hinv : Inv s) : Inv (applyOp s o) := by
  cases o with
  | tick cmds => exact inv_tickFn s cmds hinv
  | finish iid => exact inv_finishInstance s iid hinv
  | cancel iid => exact inv_cancelInstance s iid hinv

theorem inv_initSched (W : Nat) : Inv (initSched W) := by
  refine ⟨?_, ?_, ?_, ?_, ?_, ?_, ?_, ?_, ?_, ?_⟩
  · simp [initSched, taskIds]
  · intro t ht; simp [initSched] at ht
  · intro i hi; simp [initSched] at hi
  · intro i hi; simp [initSched] at hi
  · simp [initSched]
  · intro i hi; simp [initSched] at hi
  · intro t ht; simp [initSched] at ht
  · intro y hy
    rw [show (initSched W).wheel = mkWheel W from rfl, mkWheel_count] at hy
    cases hy
  · intro _ i hi; simp [initSched] at hi
  · intro i hi; simp [initSched] at hi

theorem inv_reachable (W : Nat) (s : Sched) (h : Reachable W s) : Inv s := by
  induction h with
  | init => exact inv_initSched W
  | step s o _ ih => exact inv_applyOp s o ih

theorem runOps_reachable (W : Nat) (s : Sched) (ops : List Op)
    (h : Reachable W s) : Reachable W (runOps s ops) := by
  induction ops generalizing s with
  | nil => exact h
  | cons o t ih => exact ih (applyOp s o) (Reachable.step s o h)

theorem dispatchOne_eq_none (s : Sched) (tid : Nat)
    (h : lookupTask s tid = none) : dispatchOne s tid = s := by
  unfold dispatchOne
  rw [h]

theorem dispatchOne_eq_retired (s : Sched) (tid : Nat) (t : Task)
    (h : lookupTask s tid = some t) (hret : t.remaining_count = some 0) :
    dispatchOne s tid = s := by
  simp [dispatchOne, h, hret]

theorem dispatchOne_spec (s : Sched) (tid : Nat) :
    ∃ (tail : List Event) (ni : List Instance),
      (dispatchOne s tid).events = s.events ++ tail ∧
      (dispatchOne s tid).instances = s.instances ++ ni ∧
      (dispatchOne s tid).now = s.now ∧
      (dispatchOne s tid).stopped = s.stopped ∧
      taskIds (dispatchOne s tid) = taskIds s ∧
      (∀ e ∈ tail, e = Event.parallelLimitReached tid ∨
        ∃ iid, e = Event.instanceStarted tid iid) ∧
      (∀ j ∈ ni, j.state = RUNNING) ∧
      (∀ y, y ≠ tid → (dispatchOne s tid).wheel.count y ≤ s.wheel.count y) := by
  cases hl : lookupTask s tid with
  | none =>
    rw [dispatchOne_eq_none s tid hl]
    refine ⟨[], [], by simp, by simp, rfl, rfl, rfl, ?_, ?_, ?_⟩
    · intro e he; cases he
    · intro j hj; cases hj
    · intro y _; exact le_refl _
  | some t =>
    have htid : t.task_id = tid := by simpa using List.find?_some hl
    by_cases hret : t.remaining_count = some 0
    · rw [dispatchOne_eq_retired s tid t hl hret]
      refine ⟨[], [], by simp, by simp, rfl, rfl, rfl, ?_, ?_, ?_⟩
      · intro e he; cases he
      · intro j hj; cases hj
      · intro y _; exact le_refl _
    · have hids0 : ∀ l : List Task,
          (l.map (fun u => if u.task_id = tid then { t with cursor := t.cursor + 1, remaining_count := decRemaining t.remaining_count } else u)).map Task.task_id = l.map Task.task_id := by
        intro l
        exact map_ids_ite l (fun u => u.task_id = tid) _ Task.task_id
          (fun a ha => htid.trans ha.symm)
      simp only [dispatchOne, hl]
      rw [if_neg hret]
      by_cases hcap : t.max_parallel ≤ runningCount s tid
      · simp only [if_pos hcap]
        have hev : ∀ e ∈ [Event.parallelLimitReached tid],
            e = Event.parallelLimitReached tid ∨
            ∃ iid, e = Event.instanceStarted tid iid := by
          intro e he
          rw [List.mem_singleton.mp he]
          exact Or.inl rfl
        split
        · refine ⟨[Event.parallelLimitReached tid], [], rfl, by simp, rfl, rfl, ?_, hev, ?_, ?_⟩
          · exact hids0 s.tasks
          · intro j hj; cases hj
          · intro y _; exact le_refl _
        · split
          · refine ⟨[Event.parallelLimitReached tid], [], rfl, by simp, rfl, rfl, ?_, hev, ?_, ?_⟩
            · exact hids0 s.tasks
            · intro j hj; cases hj
            · intro y _; exact le_refl _
          · refine ⟨[Event.parallelLimitReached tid], [], rfl, by simp, rfl, rfl, ?_, hev, ?_, ?_⟩
            · exact hids0 s.tasks
            · intro j hj; cases hj
            · intro y hy; exact Wheel.count_insert_le_other _ tid _ _ y (Ne.symm hy)
      · simp only [if_neg hcap]
        have hev : ∀ e ∈ [Event.instanceStarted t.task_id s.next_instance_id],
            e = Event.parallelLimitReached tid ∨
            ∃ iid, e = Event.instanceStarted tid iid := by
          intro e he
          rw [List.mem_singleton.mp he]
          exact Or.inr ⟨s.next_instance_id, by rw [htid]⟩
        have hni : ∀ j ∈ [({ instance_id := s.next_instance_id, task_id := t.task_id, state := RUNNING, started_at := s.now, deadline := t.max_running_time.map (fun k => s.now + k), signaled := false } : Instance)], j.state = RUNNING := by
          intro j hj
          rw [List.mem_singleton.mp hj]
        split
        · refine ⟨[Event.instanceStarted t.task_id s.next_instance_id], [_], rfl, rfl, rfl, rfl, ?_, hev, hni, ?_⟩
          · exact hids0 _
          · intro y _; exact le_refl _
        · split
          · refine ⟨[Event.instanceStarted t.task_id s.next_instance_id], [_], rfl, rfl, rfl, rfl, ?_, hev, hni, ?_⟩
            · exact hids0 _
            · intro y _; exact le_refl _
          · refine ⟨[Event.instanceStarted t.task_id s.next_instance_id], [_], rfl, rfl, rfl, rfl, ?_, hev, hni, ?_⟩
            · exact hids0 _
            · intro y hy; exact Wheel.count_insert_le_other _ tid _ _ y (Ne.symm hy)

theorem startedCount_single_other (e : Event) (tid : Nat)
    (h : ∀ iid, e ≠ Event.instanceStarted tid iid) : startedCount [e] tid = 0 := by
  cases e with
  | instanceStarted a b =>
    simp only [startedCount, List.countP_singleton]
    have : a ≠ tid := fun hab => h b (by rw [hab])
    simp [this]
  | instanceCompleted a b => rfl
  | instanceCancelled a b => rfl
  | instanceTimeout a b => rfl
  | parallelLimitReached a => rfl
  | taskRemoved a => rfl

theorem applyCmd_startedCount (s : Sched) (c : Cmd) (tid : Nat) :
    startedCount (applyCmd s c).events tid = startedCount s.events tid := by
  cases c with
  | add t =>
    rcases addTask_fst s t with h | ⟨_, _, _, inst, _, h⟩
    · rw [show applyCmd s (Cmd.add t) = (addTask s t).1 from rfl, h]
    · rw [show applyCmd s (Cmd.add t) = (addTask s t).1 from rfl, h]
  | remove tid2 =>
    show startedCount (removeTask s tid2).events tid = startedCount s.events tid
    unfold removeTask
    by_cases hm : tid2 ∈ taskIds s
    · rw [if_pos hm]
      show startedCount (s.events ++ _ ++ [Event.taskRemoved tid2]) tid = _
      rw [startedCount_append, startedCount_append, startedCount_cancelled_map,
        startedCount_single_other (Event.taskRemoved tid2) tid (fun _ h => by cases h)]
      omega
    · rw [if_neg hm]
  | advance tid2 =>
    show startedCount (advanceTask s tid2).events tid = startedCount s.events tid
    unfold advanceTask
    by_cases hm : tid2 ∈ taskIds s
    · rw [if_pos hm]
    · rw [if_neg hm]
  | cancelInst iid =>
    show startedCount (cancelInstance s iid).1.events tid = startedCount s.events tid
    unfold cancelInstance
    cases hf : s.instances.find? (fun i => decide (i.instance_id = iid)) with
    | none => rfl
    | some i =>
      by_cases hr : i.state = RUNNING
      · simp only [hf, hr, if_true]
        rw [startedCount_append,
          startedCount_single_other _ tid (fun _ h => by cases h), Nat.add_zero]
      · simp only [hf, hr, if_false]
  | stop => rfl

theorem applyCmds_startedCount (s : Sched) (cmds : List Cmd) (tid : Nat) :
    startedCount (applyCmds s cmds).events tid = startedCount s.events tid := by
  induction cmds generalizing s with
  | nil => rfl
  | cons c r ih =>
    show startedCount (applyCmds (applyCmd s c) r).events tid = _
    rw [ih (applyCmd s c), applyCmd_startedCount]

theorem absent_applyCmd (s : Sched) (c : Cmd) (tid : Nat) (h : Absent s tid)
    (hna : ¬c.addsId tid) : Absent (applyCmd s c) tid := by
  cases c with
  | add t =>
    have hne : t.task_id ≠ tid := hna
    rcases addTask_fst s t with heq | ⟨_, _, _, inst, _, heq⟩
    · rw [show applyCmd s (Cmd.add t) = (addTask s t).1 from rfl, heq]
      exact h
    · rw [show applyCmd s (Cmd.add t) = (addTask s t).1 from rfl, heq]
      constructor
      · show tid ∉ (s.tasks ++ [{ t with cursor := t.cursor + 1 }]).map Task.task_id
        rw [List.map_append]
        intro hmem
        rcases List.mem_append.mp hmem with hmem | hmem
        · exact h.1 hmem
        · simp at hmem
          exact hne hmem.symm
      · show (s.wheel.insert t.task_id (inst - s.now) s.now).count tid = 0
        have := Wheel.count_insert_le_other s.wheel t.task_id (inst - s.now) s.now tid hne
        have h2 := h.2
        omega
  | remove tid2 =>
    show Absent (removeTask s tid2) tid
    unfold removeTask
    by_cases hm : tid2 ∈ taskIds s
    · rw [if_pos hm]
      constructor
      · show tid ∉ (s.tasks.filter _).map Task.task_id
        intro hmem
        obtain ⟨u, hu, hu2⟩ := List.mem_map.mp hmem
        exact h.1 (List.mem_map.mpr ⟨u, List.mem_of_mem_filter hu, hu2⟩)
      · have := Wheel.count_remove_le s.wheel tid2 tid
        have h2 := h.2
        show (s.wheel.remove tid2).count tid = 0
        omega
    · rw [if_neg hm]
      exact h
  | advance tid2 =>
    show Absent (advanceTask s tid2) tid
    unfold advanceTask
    by_cases hm : tid2 ∈ taskIds s
    · rw [if_pos hm]
      have hne : tid2 ≠ tid := fun he => h.1 (he ▸ hm)
      refine ⟨h.1, ?_⟩
      have := Wheel.count_insert_le_other s.wheel tid2 0 s.now tid hne
      have h2 := h.2
      show (s.wheel.insert tid2 0 s.now).count tid = 0
      omega
    · rw [if_neg hm]
      exact h
  | cancelInst iid =>
    show Absent (cancelInstance s iid).1 tid
    unfold cancelInstance
    cases hf : s.instances.find? (fun i => decide (i.instance_id = iid)) with
    | none => exact h
    | some i =>
      by_cases hr : i.state = RUNNING
      · simp only [hf, hr, if_true]
        exact h
      · simp only [hf, hr, if_false]
        exact h
  | stop => exact h

theorem absent_applyCmds (s : Sched) (cmds : List Cmd) (tid : Nat)
    (h : Absent s tid) (hna : ∀ c ∈ cmds, ¬c.addsId tid) :
    Absent (applyCmds s cmds) tid := by
  induction cmds generalizing s with
  | nil => exact h
  | cons c r ih =>
    exact ih (applyCmd s c)
      (absent_applyCmd s c tid h (hna c (List.mem_cons_self c r)))
      (fun c2 hc2 => hna c2 (List.mem_cons_of_mem c hc2))

theorem startedCount_dispatch_tail (tail : List Event) (x tid : Nat)
    (hx : x ≠ tid)
    (hev : ∀ e ∈ tail, e = Event.parallelLimitReached x ∨
      ∃ iid, e = Event.instanceStarted x iid) :
    startedCount tail tid = 0 := by
  refine List.countP_eq_zero.mpr ?_
  intro e he
  rcases hev e he with rfl | ⟨iid, rfl⟩
  · simp
  · simp [hx]

theorem absent_dispatchFold (l : List Nat) (tid : Nat) (hl : ∀ x ∈ l, x ≠ tid) :
    ∀ s, Absent s tid → Absent (l.foldl dispatchOne s) tid ∧
      startedCount (l.foldl dispatchOne s).events tid = startedCount s.events tid := by
  induction l with
  | nil => intro s h; exact ⟨h, rfl⟩
  | cons x r ih =>
    intro s h
    obtain ⟨tail, ni, hev2, _, _, _, hids, hev, _, hwle⟩ := dispatchOne_spec s x
    have hx : x ≠ tid := hl x (List.mem_cons_self x r)
    have habs : Absent (dispatchOne s x) tid := by
      refine ⟨?_, ?_⟩
      · rw [hids]; exact h.1
      · have := hwle tid (fun he => hx he.symm)
        have h2 := h.2
        omega
    have hsc : startedCount (dispatchOne s x).events tid = startedCount s.events tid := by
      rw [hev2, startedCount_append, startedCount_dispatch_tail tail x tid hx hev,
        Nat.add_zero]
    have hr := ih (fun y hy => hl y (List.mem_cons_of_mem x hy)) (dispatchOne s x) habs
    refine ⟨hr.1, ?_⟩
    rw [List.foldl_cons, hr.2, hsc]

theorem timeoutScan_startedCount (s : Sched) (tid : Nat) :
    startedCount (timeoutScan s).events tid = startedCount s.events tid := by
  show startedCount (s.events ++ (s.instances.filter (fun i => i.timedOutAt s.now)).map (fun i => Event.instanceTimeout i.task_id i.instance_id)) tid = startedCount s.events tid
  rw [startedCount_append, startedCount_timeout_map, Nat.add_zero]

theorem absent_tickFn (s : Sched) (cmds : List Cmd) (tid : Nat)
    (h0 : Absent (applyCmds s cmds) tid) :
    Absent (tickFn s cmds) tid ∧
      startedCount (tickFn s cmds).events tid =
        startedCount (applyCmds s cmds).events tid := by
  unfold tickFn
  by_cases hst : (applyCmds s cmds).stopped = true
  · rw [if_pos hst]
    exact ⟨h0, rfl⟩
  · rw [if_neg hst]
    have h1 : Absent { applyCmds s cmds with
        wheel := ((applyCmds s cmds).wheel.popDue (applyCmds s cmds).now).2 } tid := by
      refine ⟨h0.1, ?_⟩
      have := Wheel.count_popDue_le (applyCmds s cmds).wheel (applyCmds s cmds).now tid
      have h2 := h0.2
      show (((applyCmds s cmds).wheel.popDue (applyCmds s cmds).now).2).count tid = 0
      omega
    have hdue : ∀ x ∈ ((applyCmds s cmds).wheel.popDue (applyCmds s cmds).now).1,
        x ≠ tid := by
      intro x hx he
      subst he
      have := Wheel.popDue_mem_count (applyCmds s cmds).wheel (applyCmds s cmds).now x hx
      have h2 := h0.2
      omega
    obtain ⟨h2a, h2b⟩ := absent_dispatchFold _ tid hdue _ h1
    have h2a2 : Absent (dispatchStep (applyCmds s cmds)) tid := h2a
    have h2b2 : startedCount (dispatchStep (applyCmds s cmds)).events tid =
        startedCount (applyCmds s cmds).events tid := h2b
    constructor
    · exact ⟨h2a2.1, h2a2.2⟩
    · show startedCount (timeoutScan (dispatchStep (applyCmds s cmds))).events tid = _
      rw [timeoutScan_startedCount, h2b2]

theorem finishInstance_fields (s : Sched) (iid tid : Nat) :
    (finishInstance s iid).tasks = s.tasks ∧
    (finishInstance s iid).wheel = s.wheel ∧
    startedCount (finishInstance s iid).events tid = startedCount s.events tid := by
  unfold finishInstance
  cases hf : s.instances.find? (fun i => decide (i.instance_id = iid)) with
  | none => exact ⟨rfl, rfl, rfl⟩
  | some i =>
    by_cases hr : i.state = RUNNING
    · simp only [hf, hr, if_true, true_and]
      rw [startedCount_append, startedCount_single_other _ tid (fun _ h => by cases h),
        Nat.add_zero]
    · simp [hf, hr]

theorem absent_applyOp (s : Sched) (o : Op) (tid : Nat) (h : Absent s tid)
    (hna : o.noAdd tid) :
    Absent (applyOp s o) tid ∧
      startedCount (applyOp s o).events tid = startedCount s.events tid := by
  cases o with
  | tick cmds =>
    have h0 : Absent (applyCmds s cmds) tid := absent_applyCmds s cmds tid h hna
    obtain ⟨ha, hb⟩ := absent_tickFn s cmds tid h0
    refine ⟨ha, ?_⟩
    show startedCount (tickFn s cmds).events tid = startedCount s.events tid
    rw [hb, applyCmds_startedCount]
  | finish iid =>
    obtain ⟨ht, hw, hs⟩ := finishInstance_fields s iid tid
    refine ⟨⟨?_, ?_⟩, hs⟩
    · show tid ∉ (finishInstance s iid).tasks.map Task.task_id
      rw [ht]
      exact h.1
    · show (finishInstance s iid).wheel.count tid = 0
      rw [hw]
      exact h.2
  | cancel iid =>
    refine ⟨absent_applyCmd s (Cmd.cancelInst iid) tid h (fun hx => hx), ?_⟩
    exact applyCmd_startedCount s (Cmd.cancelInst iid) tid

theorem absent_runOps (s : Sched) (ops : List Op) (tid : Nat) (h : Absent s tid)
    (hna : ∀ o ∈ ops, o.noAdd tid) :
    Absent (runOps s ops) tid ∧
      startedCount (runOps s ops).events tid = startedCount s.events tid := by
  induction ops generalizing s with
  | nil => exact ⟨h, rfl⟩
  | cons o r ih =>
    obtain ⟨ha, hb⟩ := absent_applyOp s o tid h (hna o (List.mem_cons_self o r))
    obtain ⟨hc, hd⟩ := ih (applyOp s o) ha (fun o2 ho2 => hna o2 (List.mem_cons_of_mem o ho2))
    refine ⟨hc, ?_⟩
    show startedCount (runOps (applyOp s o) r).events tid = startedCount s.events tid
    rw [hd, hb]

theorem removeTask_absent (s : Sched) (tid : Nat) (hinv : Inv s) :
    Absent (removeTask s tid) tid := by
  unfold removeTask
  by_cases hm : tid ∈ taskIds s
  · rw [if_pos hm]
    constructor
    · show tid ∉ (s.tasks.filter (fun t => !decide (t.task_id = tid))).map Task.task_id
      intro hmem
      obtain ⟨u, hu, hu2⟩ := List.mem_map.mp hmem
      have := (List.mem_filter.mp hu).2
      simp at this
      exact this hu2
    · exact Wheel.count_remove_self s.wheel tid
  · rw [if_neg hm]
    refine ⟨hm, ?_⟩
    by_cases hz : s.wheel.count tid = 0
    · exact hz
    · exact absurd (hinv.wheelReg tid (Nat.pos_of_ne_zero hz)) hm

theorem uniq_of_nodup_ids (s : Sched) (hinv : Inv s) (i j : Instance)
    (hi : i ∈ s.instances) (hj : j ∈ s.instances)
    (hij : i.instance_id = j.instance_id) : i = j :=
  List.inj_on_of_nodup_map hinv.instIdsNodup hi hj hij

theorem addTask_instances (s : Sched) (t : Task) :
    (addTask s t).1.instances = s.instances := by
  rcases addTask_fst s t with h | ⟨_, _, _, inst, _, h⟩ <;> rw [h]

theorem advanceTask_instances (s : Sched) (tid : Nat) :
    (advanceTask s tid).instances = s.instances := by
  unfold advanceTask
  split <;> rfl

theorem stable_cancelInstance (s : Sched) (iid : Nat) (i : Instance)
    (hinv : Inv s) (hi : i ∈ s.instances) (hterm : ¬i.state = RUNNING) :
    i ∈ (cancelInstance s iid).1.instances := by
  unfold cancelInstance
  cases hf : s.instances.find? (fun j => decide (j.instance_id = iid)) with
  | none => exact hi
  | some j =>
    by_cases hr : j.state = RUNNING
    · simp only [hf, hr, if_true]
      refine mem_map_ite_of_not s.instances (fun k => k.instance_id = iid) _ i hi ?_
      intro heq
      have hjm : j ∈ s.instances := List.mem_of_find?_eq_some hf
      have hjid : j.instance_id = iid := by simpa using List.find?_some hf
      have : i = j := uniq_of_nodup_ids s hinv i j hi hjm (heq.trans hjid.symm)
      rw [this] at hterm
      exact hterm hr
    · simp only [hf, hr, if_false]
      exact hi

theorem stable_finishInstance (s : Sched) (iid : Nat) (i : Instance)
    (hinv : Inv s) (hi : i ∈ s.instances) (hterm : ¬i.state = RUNNING) :
    i ∈ (finishInstance s iid).instances := by
  unfold finishInstance
  cases hf : s.instances.find? (fun j => decide (j.instance_id = iid)) with
  | none => exact hi
  | some j =>
    by_cases hr : j.state = RUNNING
    · simp only [hf, hr, if_true]
      refine mem_map_ite_of_not s.instances (fun k => k.instance_id = iid) _ i hi ?_
      intro heq
      have hjm : j ∈ s.instances := List.mem_of_find?_eq_some hf
      have hjid : j.instance_id = iid := by simpa using List.find?_some hf
      have : i = j := uniq_of_nodup_ids s hinv i j hi hjm (heq.trans hjid.symm)
      rw [this] at hterm
      exact hterm hr
    · simp only [hf, hr, if_false]
      exact hi

theorem stable_removeTask (s : Sched) (tid : Nat) (i : Instance)
    (hi : i ∈ s.instances) (hterm : ¬i.state = RUNNING) :
    i ∈ (removeTask s tid).instances := by
  unfold removeTask
  by_cases hm : tid ∈ taskIds s
  · rw [if_pos hm]
    refine mem_map_ite_of_not s.instances (fun k => k.isRunningOf tid = true) _ i hi ?_
    simp [Instance.isRunningOf, hterm]
  · rw [if_neg hm]
    exact hi

theorem stable_timeoutScan (s : Sched) (i : Instance)
    (hi : i ∈ s.instances) (hterm : ¬i.state = RUNNING) :
    i ∈ (timeoutScan s).instances := by
  unfold timeoutScan
  refine mem_map_ite_of_not s.instances (fun k => k.timedOutAt s.now = true) _ i hi ?_
  simp [Instance.timedOutAt, hterm]

theorem stable_applyCmd (s : Sched) (c : Cmd) (i : Instance) (hinv : Inv s)
    (hi : i ∈ s.instances) (hterm : ¬i.state = RUNNING) :
    i ∈ (applyCmd s c).instances := by
  cases c with
  | add t =>
    show i ∈ (addTask s t).1.instances
    rw [addTask_instances]
    exact hi
  | remove tid => exact stable_removeTask s tid i hi hterm
  | advance tid =>
    show i ∈ (advanceTask s tid).instances
    rw [advanceTask_instances]
    exact hi
  | cancelInst iid => exact stable_cancelInstance s iid i hinv hi hterm
  | stop => exact hi

theorem stable_applyCmds (s : Sched) (cmds : List Cmd) (i : Instance)
    (hinv : Inv s) (hi : i ∈ s.instances) (hterm : ¬i.state = RUNNING) :
    i ∈ (applyCmds s cmds).instances := by
  induction cmds generalizing s with
  | nil => exact hi
  | cons c r ih =>
    exact ih (applyCmd s c) (inv_applyCmd s c hinv)
      (stable_applyCmd s c i hinv hi hterm)

theorem stable_dispatchFold (l : List Nat) (i : Instance) :
    ∀ s, i ∈ s.instances → i ∈ (l.foldl dispatchOne s).instances := by
  induction l with
  | nil => intro s hi; exact hi
  | cons x r ih =>
    intro s hi
    obtain ⟨tail, ni, _, hinsts, _, _, _, _, _, _⟩ := dispatchOne_spec s x
    exact ih (dispatchOne s x) (by rw [hinsts]; exact List.mem_append_left _ hi)

theorem stable_tickFn (s : Sched) (cmds : List Cmd) (i : Instance)
    (hinv : Inv s) (hi : i ∈ s.instances) (hterm : ¬i.state = RUNNING) :
    i ∈ (tickFn s cmds).instances := by
  unfold tickFn
  have h0 : i ∈ (applyCmds s cmds).instances := stable_applyCmds s cmds i hinv hi hterm
  by_cases hst : (applyCmds s cmds).stopped = true
  · rw [if_pos hst]
    exact h0
  · rw [if_neg hst]
    have h1 : i ∈ ({ applyCmds s cmds with
        wheel := ((applyCmds s cmds).wheel.popDue (applyCmds s cmds).now).2 } : Sched).instances := h0
    have h2 := stable_dispatchFold
      ((applyCmds s cmds).wheel.popDue (applyCmds s cmds).now).1 i _ h1
    exact stable_timeoutScan _ i h2 hterm

theorem stable_applyOp (s : Sched) (o : Op) (i : Instance) (hinv : Inv s)
    (hi : i ∈ s.instances) (hterm : ¬i.state = RUNNING) :
    i ∈ (applyOp s o).instances := by
  cases o with
  | tick cmds => exact stable_tickFn s cmds i hinv hi hterm
  | finish iid => exact stable_finishInstance s iid i hinv hi hterm
  | cancel iid => exact stable_cancelInstance s iid i hinv hi hterm

theorem stable_runOps (s : Sched) (ops : List Op) (i : Instance) (hinv : Inv s)
    (hi : i ∈ s.instances) (hterm : ¬i.state = RUNNING) :
    i ∈ (runOps s ops).instances := by
  induction ops generalizing s with
  | nil => exact hi
  | cons o r ih =>
    exact ih (applyOp s o) (inv_applyOp s o hinv)
      (stable_applyOp s o i hinv hi hterm)

theorem lookup_of_tasks_eq (s s2 : Sched) (tid : Nat) (h : s2.tasks = s.tasks) :
    lookupTask s2 tid = lookupTask s tid := by
  unfold lookupTask
  rw [h]

theorem cancelInstance_tasks (s : Sched) (iid : Nat) :
    ((cancelInstance s iid).1).tasks = s.tasks := by
  unfold cancelInstance
  cases hf : s.instances.find? (fun i => decide (i.instance_id = iid)) with
  | none => rfl
  | some i =>
    by_cases hr : i.state = RUNNING
    · simp [hf, hr]
    · simp [hf, hr]

theorem lookupTask_addTask_other (s : Sched) (t : Task) (tid : Nat)
    (hne : t.task_id ≠ tid) :
    lookupTask (addTask s t).1 tid = lookupTask s tid := by
  rcases addTask_fst s t with h | ⟨_, _, _, inst, _, h⟩
  · rw [h]
  · rw [h]
    show (s.tasks ++ [{ t with cursor := t.cursor + 1 }]).find?
      (fun u => decide (u.task_id = tid)) = lookupTask s tid
    cases hf : s.tasks.find? (fun u => decide (u.task_id = tid)) with
    | some u =>
      rw [find?_append_some _ _ _ u hf]
      exact hf.symm
    | none =>
      rw [find?_append_none _ _ _ hf, List.find?_cons_of_neg _ (by simp [hne])]
      exact hf.symm

theorem lookupTask_removeTask_other (s : Sched) (tid2 tid : Nat) (hne : tid2 ≠ tid) :
    lookupTask (removeTask s tid2) tid = lookupTask s tid := by
  unfold removeTask
  by_cases hm : tid2 ∈ taskIds s
  · rw [if_pos hm]
    show (s.tasks.filter _).find? (fun u => decide (u.task_id = tid)) = lookupTask s tid
    exact find?_filter_of_imp s.tasks _ _ (by
      intro a ha
      simp at ha ⊢
      omega)
  · rw [if_neg hm]

theorem lookupTask_removeTask_self (s : Sched) (tid : Nat) :
    lookupTask (removeTask s tid) tid = none := by
  unfold removeTask
  by_cases hm : tid ∈ taskIds s
  · rw [if_pos hm]
    show (s.tasks.filter _).find? (fun u => decide (u.task_id = tid)) = none
    refine List.find?_eq_none.mpr ?_
    intro a ha hp
    have h2 := (List.mem_filter.mp ha).2
    simp at h2 hp
    exact h2 hp
  · rw [if_neg hm]
    refine List.find?_eq_none.mpr ?_
    intro a ha hp
    simp at hp
    exact hm (List.mem_map.mpr ⟨a, ha, hp⟩)

theorem advanceTask_tasks (s : Sched) (tid : Nat) :
    (advanceTask s tid).tasks = s.tasks := by
  unfold advanceTask
  split <;> rfl

theorem dispatchOne_lookup_other (s : Sched) (tidD tid : Nat) (hne : tidD ≠ tid) :
    lookupTask (dispatchOne s tidD) tid = lookupTask s tid := by
  cases hl : lookupTask s tidD with
  | none => rw [dispatchOne_eq_none s tidD hl]
  | some t =>
    have htid : t.task_id = tidD := by simpa using List.find?_some hl
    by_cases hret : t.remaining_count = some 0
    · rw [dispatchOne_eq_retired s tidD t hl hret]
    · have hmap : ∀ l : List Task,
          (l.map (fun u => if u.task_id = tidD then { t with cursor := t.cursor + 1, remaining_count := decRemaining t.remaining_count } else u)).find?
            (fun u => decide (u.task_id = tid)) =
          l.find? (fun u => decide (u.task_id = tid)) := by
        intro l
        refine find?_map_other l _ _ ?_ ?_
        · intro a ha
          by_cases hca : a.task_id = tidD
          · rw [if_pos hca]
            simp [htid, hne]
          · rw [if_neg hca]
            exact ha
        · intro a ha
          simp at ha
          rw [if_neg (by rw [ha]; exact fun h => hne h.symm)]
      simp only [dispatchOne, hl]
      rw [if_neg hret]
      by_cases hcap : t.max_parallel ≤ runningCount s tidD
      · simp only [if_pos hcap]
        split
        · exact hmap s.tasks
        · split
          · exact hmap s.tasks
          · exact hmap s.tasks
      · simp only [if_neg hcap]
        split
        · exact hmap s.tasks
        · split
          · exact hmap s.tasks
          · exact hmap s.tasks

theorem cd_dispatchOne (s : Sched) (tidD tid : Nat) (hcd : isCountdownAt s tid) :
    isCountdownAt (dispatchOne s tidD) tid ∧
    startedCount (dispatchOne s tidD).events tid + remPot (dispatchOne s tidD) tid ≤
      startedCount s.events tid + remPot s tid := by
  by_cases hne : tidD = tid
  case neg =>
    have hlk := dispatchOne_lookup_other s tidD tid hne
    obtain ⟨tail, ni, hev2, _, _, _, _, hev, _, _⟩ := dispatchOne_spec s tidD
    constructor
    · intro t' h'
      rw [hlk] at h'
      exact hcd t' h'
    · have h1 : startedCount (dispatchOne s tidD).events tid = startedCount s.events tid := by
        rw [hev2, startedCount_append, startedCount_dispatch_tail tail tidD tid hne hev,
          Nat.add_zero]
      have h2 : remPot (dispatchOne s tidD) tid = remPot s tid := by
        unfold remPot
        rw [hlk]
      rw [h1, h2]
  case pos =>
    subst hne
    cases hl : lookupTask s tidD with
    | none =>
      rw [dispatchOne_eq_none s tidD hl]
      exact ⟨hcd, le_refl _⟩
    | some t =>
      have htid : t.task_id = tidD := by simpa using List.find?_some hl
      by_cases hret : t.remaining_count = some 0
      · rw [dispatchOne_eq_retired s tidD t hl hret]
        exact ⟨hcd, le_refl _⟩
      · obtain ⟨r, hr⟩ := hcd t hl
        have hrpos : r ≠ 0 := fun h0 => hret (by rw [hr, h0])
        have hpots : remPot s tidD = r := by
          simp only [remPot, hl]
          rw [hr]
          rfl
        have hlk2 : ∀ l : List Task, l.find? (fun u => decide (u.task_id = tidD)) = some t →
            (l.map (fun u => if u.task_id = tidD then { t with cursor := t.cursor + 1, remaining_count := decRemaining t.remaining_count } else u)).find?
              (fun u => decide (u.task_id = tidD)) =
            some { t with cursor := t.cursor + 1, remaining_count := decRemaining t.remaining_count } := by
          intro l hfl
          have := find?_map_replace l (fun u => decide (u.task_id = tidD))
            (fun u => if u.task_id = tidD then { t with cursor := t.cursor + 1, remaining_count := decRemaining t.remaining_count } else u)
            (by
              intro a ha
              simp at ha
              simp [ha])
            (by
              intro a ha
              simp at ha
              simp [ha, htid])
            t hfl
          rw [this]
          simp [htid]
        have hpotmap : ∀ s2 : Sched, s2.tasks = s.tasks.map (fun u => if u.task_id = tidD then { t with cursor := t.cursor + 1, remaining_count := decRemaining t.remaining_count } else u) →
            remPot s2 tidD = r - 1 := by
          intro s2 hs2
          unfold remPot lookupTask
          rw [hs2, hlk2 s.tasks hl]
          rw [hr]
          rfl
        have hcdmap : ∀ s2 : Sched, s2.tasks = s.tasks.map (fun u => if u.task_id = tidD then { t with cursor := t.cursor + 1, remaining_count := decRemaining t.remaining_count } else u) →
            isCountdownAt s2 tidD := by
          intro s2 hs2 t' h'
          unfold lookupTask at h'
          rw [hs2, hlk2 s.tasks hl] at h'
          cases h'
          exact ⟨r - 1, by rw [hr]; rfl⟩
        simp only [dispatchOne, hl]
        rw [if_neg hret]
        by_cases hcap : t.max_parallel ≤ runningCount s tidD
        · simp only [if_pos hcap]
          have hsc : ∀ l2 : List Event, l2 = [Event.parallelLimitReached tidD] →
              startedCount (s.events ++ l2) tidD = startedCount s.events tidD := by
            intro l2 hl2
            rw [hl2, startedCount_append,
              startedCount_single_other _ tidD (fun _ h => by cases h), Nat.add_zero]
          split
          · refine ⟨hcdmap _ rfl, ?_⟩
            rw [hsc _ rfl, hpotmap _ rfl, hpots]
            omega
          · split
            · refine ⟨hcdmap _ rfl, ?_⟩
              rw [hsc _ rfl, hpotmap _ rfl, hpots]
              omega
            · refine ⟨hcdmap _ rfl, ?_⟩
              rw [hsc _ rfl, hpotmap _ rfl, hpots]
              omega
        · simp only [if_neg hcap]
          have hsc : startedCount (spawnInstance s t).events tidD = startedCount s.events tidD + 1 := by
            show startedCount (s.events ++ [Event.instanceStarted t.task_id s.next_instance_id]) tidD = startedCount s.events tidD + 1
            rw [startedCount_append]
            simp [startedCount, htid]
          split
          · refine ⟨hcdmap _ rfl, ?_⟩
            rw [hsc, hpotmap _ rfl, hpots]
            omega
          · split
            · refine ⟨hcdmap _ rfl, ?_⟩
              rw [hsc, hpotmap _ rfl, hpots]
              omega
            · refine ⟨hcdmap _ rfl, ?_⟩
              rw [hsc, hpotmap _ rfl, hpots]
              omega

theorem cd_dispatchFold (tid : Nat) (l : List Nat) :
    ∀ s : Sched, isCountdownAt s tid →
    isCountdownAt (l.foldl dispatchOne s) tid ∧
    startedCount (l.foldl dispatchOne s).events tid + remPot (l.foldl dispatchOne s) tid ≤
      startedCount s.events tid + remPot s tid := by
  induction l with
  | nil => intro s h; exact ⟨h, le_refl _⟩
  | cons x r ih =>
    intro s h
    obtain ⟨h1, h2⟩ := cd_dispatchOne s x tid h
    obtain ⟨h3, h4⟩ := ih (dispatchOne s x) h1
    rw [List.foldl_cons]
    exact ⟨h3, by omega⟩

theorem cd_applyCmd (s : Sched) (c : Cmd) (tid : Nat) (hcd : isCountdownAt s tid)
    (hna : ¬c.addsId tid) :
    isCountdownAt (applyCmd s c) tid ∧
    startedCount (applyCmd s c).events tid + remPot (applyCmd s c) tid ≤
      startedCount s.events tid + remPot s tid := by
  have hstart := applyCmd_startedCount s c tid
  cases c with
  | add t =>
    have hlk := lookupTask_addTask_other s t tid hna
    refine ⟨?_, ?_⟩
    · intro t' h'
      have h2 : lookupTask (addTask s t).1 tid = some t' := h'
      rw [hlk] at h2
      exact hcd t' h2
    · have hpot : remPot (applyCmd s (Cmd.add t)) tid = remPot s tid := by
        show remPot (addTask s t).1 tid = remPot s tid
        unfold remPot
        rw [hlk]
      rw [hstart, hpot]
  | remove tid2 =>
    by_cases htt : tid2 = tid
    · subst htt
      have hlkn := lookupTask_removeTask_self s tid2
      refine ⟨?_, ?_⟩
      · intro t' h'
        have h2 : lookupTask (removeTask s tid2) tid2 = some t' := h'
        rw [hlkn] at h2
        cases h2
      · have hpot : remPot (applyCmd s (Cmd.remove tid2)) tid2 = 0 := by
          show remPot (removeTask s tid2) tid2 = 0
          unfold remPot
          rw [hlkn]
        rw [hstart, hpot]
        omega
    · have hlk := lookupTask_removeTask_other s tid2 tid htt
      refine ⟨?_, ?_⟩
      · intro t' h'
        have h2 : lookupTask (removeTask s tid2) tid = some t' := h'
        rw [hlk] at h2
        exact hcd t' h2
      · have hpot : remPot (applyCmd s (Cmd.remove tid2)) tid = remPot s tid := by
          show remPot (removeTask s tid2) tid = remPot s tid
          unfold remPot
          rw [hlk]
        rw [hstart, hpot]
  | advance tid2 =>
    have hlk := lookup_of_tasks_eq s (advanceTask s tid2) tid (advanceTask_tasks s tid2)
    refine ⟨?_, ?_⟩
    · intro t' h'
      have h2 : lookupTask (advanceTask s tid2) tid = some t' := h'
      rw [hlk] at h2
      exact hcd t' h2
    · have hpot : remPot (applyCmd s (Cmd.advance tid2)) tid = remPot s tid := by
        show remPot (advanceTask s tid2) tid = remPot s tid
        unfold remPot
        rw [hlk]
      rw [hstart, hpot]
  | cancelInst iid =>
    have hlk := lookup_of_tasks_eq s (cancelInstance s iid).1 tid (cancelInstance_tasks s iid)
    refine ⟨?_, ?_⟩
    · intro t' h'
      have h2 : lookupTask (cancelInstance s iid).1 tid = some t' := h'
      rw [hlk] at h2
      exact hcd t' h2
    · have hpot : remPot (applyCmd s (Cmd.cancelInst iid)) tid = remPot s tid := by
        show remPot (cancelInstance s iid).1 tid = remPot s tid
        unfold remPot
        rw [hlk]
      rw [hstart, hpot]
  | stop =>
    refine ⟨fun t' h' => hcd t' h', ?_⟩
    rw [hstart]
    have hpot : remPot (applyCmd s Cmd.stop) tid = remPot s tid := rfl
    rw [hpot]

theorem cd_applyCmds (s : Sched) (cmds : List Cmd) (tid : Nat)
    (hcd : isCountdownAt s tid) (hna : ∀ c ∈ cmds, ¬c.addsId tid) :
    isCountdownAt (applyCmds s cmds) tid ∧
    startedCount (applyCmds s cmds).events tid + remPot (applyCmds s cmds) tid ≤
      startedCount s.events tid + remPot s tid := by
  induction cmds generalizing s with
  | nil => exact ⟨hcd, le_refl _⟩
  | cons c r ih =>
    obtain ⟨h1, h2⟩ := cd_applyCmd s c tid hcd (hna c (List.mem_cons_self c r))
    obtain ⟨h3, h4⟩ := ih (applyCmd s c) h1 (fun c2 hc2 => hna c2 (List.mem_cons_of_mem c hc2))
    refine ⟨h3, ?_⟩
    show startedCount (applyCmds (applyCmd s c) r).events tid +
      remPot (applyCmds (applyCmd s c) r) tid ≤ _
    omega

theorem cd_timeoutScan (s : Sched) (tid : Nat) (hcd : isCountdownAt s tid) :
    isCountdownAt (timeoutScan s) tid ∧
    startedCount (timeoutScan s).events tid + remPot (timeoutScan s) tid =
      startedCount s.events tid + remPot s tid := by
  have hlk : lookupTask (timeoutScan s) tid = lookupTask s tid := rfl
  refine ⟨?_, ?_⟩
  · intro t' h'
    rw [hlk] at h'
    exact hcd t' h'
  · have hpot : remPot (timeoutScan s) tid = remPot s tid := by
      unfold remPot
      rw [hlk]
    rw [timeoutScan_startedCount, hpot]

theorem cd_tickFn (s : Sched) (cmds : List Cmd) (tid : Nat)
    (hcd : isCountdownAt s tid) (hna : ∀ c ∈ cmds, ¬c.addsId tid) :
    isCountdownAt (tickFn s cmds) tid ∧
    startedCount (tickFn s cmds).events tid + remPot (tickFn s cmds) tid ≤
      startedCount s.events tid + remPot s tid := by
  obtain ⟨h0a, h0b⟩ := cd_applyCmds s cmds tid hcd hna
  unfold tickFn
  by_cases hst : (applyCmds s cmds).stopped = true
  · rw [if_pos hst]
    refine ⟨fun t' h' => h0a t' h', ?_⟩
    have e1 : startedCount ({ applyCmds s cmds with
        now := (applyCmds s cmds).now + 1 } : Sched).events tid =
        startedCount (applyCmds s cmds).events tid := rfl
    have e2 : remPot ({ applyCmds s cmds with
        now := (applyCmds s cmds).now + 1 } : Sched) tid =
        remPot (applyCmds s cmds) tid := rfl
    rw [e1, e2]
    exact h0b
  · rw [if_neg hst]
    have h1a : isCountdownAt { applyCmds s cmds with
        wheel := ((applyCmds s cmds).wheel.popDue (applyCmds s cmds).now).2 } tid :=
      fun t' h' => h0a t' h'
    obtain ⟨h2a, h2b⟩ := cd_dispatchFold tid
      ((applyCmds s cmds).wheel.popDue (applyCmds s cmds).now).1 _ h1a
    have h2a2 : isCountdownAt (dispatchStep (applyCmds s cmds)) tid := h2a
    have h2b2 : startedCount (dispatchStep (applyCmds s cmds)).events tid +
        remPot (dispatchStep (applyCmds s cmds)) tid ≤
        startedCount (applyCmds s cmds).events tid + remPot (applyCmds s cmds) tid := h2b
    obtain ⟨h3a, h3b⟩ := cd_timeoutScan (dispatchStep (applyCmds s cmds)) tid h2a2
    refine ⟨?_, ?_⟩
    · intro t' h'
      have h2 : lookupTask (timeoutScan (dispatchStep (applyCmds s cmds))) tid = some t' := h'
      exact h3a t' h2
    · have e1 : startedCount (endStep (timeoutScan (dispatchStep (applyCmds s cmds)))).events tid =
          startedCount (timeoutScan (dispatchStep (applyCmds s cmds))).events tid := rfl
      have e2 : remPot (endStep (timeoutScan (dispatchStep (applyCmds s cmds)))) tid =
          remPot (timeoutScan (dispatchStep (applyCmds s cmds))) tid := rfl
      rw [e1, e2]
      omega

theorem cd_applyOp (s : Sched) (o : Op) (tid : Nat) (hcd : isCountdownAt s tid)
    (hna : o.noAdd tid) :
    isCountdownAt (applyOp s o) tid ∧
    startedCount (applyOp s o).events tid + remPot (applyOp s o) tid ≤
      startedCount s.events tid + remPot s tid := by
  cases o with
  | tick cmds => exact cd_tickFn s cmds tid hcd hna
  | finish iid =>
    obtain ⟨ht, hw, hs⟩ := finishInstance_fields s iid tid
    have hlk := lookup_of_tasks_eq s (finishInstance s iid) tid ht
    refine ⟨?_, ?_⟩
    · intro t' h'
      have h2 : lookupTask (finishInstance s iid) tid = some t' := h'
      rw [hlk] at h2
      exact hcd t' h2
    · have hpot : remPot (applyOp s (Op.finish iid)) tid = remPot s tid := by
        show remPot (finishInstance s iid) tid = remPot s tid
        unfold remPot
        rw [hlk]
      have hs2 : startedCount (applyOp s (Op.finish iid)).events tid =
          startedCount s.events tid := hs
      rw [hs2, hpot]
  | cancel iid =>
    have h := cd_applyCmd s (Cmd.cancelInst iid) tid hcd (fun hx => hx)
    exact h

theorem cd_runOps (s : Sched) (ops : List Op) (tid : Nat) (hcd : isCountdownAt s tid)
    (hna : ∀ o ∈ ops, o.noAdd tid) :
    isCountdownAt (runOps s ops) tid ∧
    startedCount (runOps s ops).events tid + remPot (runOps s ops) tid ≤
      startedCount s.events tid + remPot s tid := by
  induction ops generalizing s with
  | nil => exact ⟨hcd, le_refl _⟩
  | cons o r ih =>
    obtain ⟨h1, h2⟩ := cd_applyOp s o tid hcd (hna o (List.mem_cons_self o r))
    obtain ⟨h3, h4⟩ := ih (applyOp s o) h1 (fun o2 ho2 => hna o2 (List.mem_cons_of_mem o ho2))
    refine ⟨h3, ?_⟩
    show startedCount (runOps (applyOp s o) r).events tid +
      remPot (runOps (applyOp s o) r) tid ≤ _
    omega

theorem applyCmd_events_ext (s : Sched) (c : Cmd) :
    ∃ tail, (applyCmd s c).events = s.events ++ tail := by
  cases c with
  | add t =>
    rcases addTask_fst s t with h | ⟨_, _, _, inst, _, h⟩
    · exact ⟨[], by rw [show applyCmd s (Cmd.add t) = (addTask s t).1 from rfl, h]; simp⟩
    · exact ⟨[], by rw [show applyCmd s (Cmd.add t) = (addTask s t).1 from rfl, h]; simp⟩
  | remove tid =>
    show ∃ tail, (removeTask s tid).events = s.events ++ tail
    unfold removeTask
    by_cases hm : tid ∈ taskIds s
    · rw [if_pos hm]
      refine ⟨(s.instances.filter (fun i => i.isRunningOf tid)).map (fun i => Event.instanceCancelled tid i.instance_id) ++ [Event.taskRemoved tid], ?_⟩
      show s.events ++ (s.instances.filter (fun i => i.isRunningOf tid)).map (fun i => Event.instanceCancelled tid i.instance_id) ++ [Event.taskRemoved tid] = s.events ++ ((s.instances.filter (fun i => i.isRunningOf tid)).map (fun i => Event.instanceCancelled tid i.instance_id) ++ [Event.taskRemoved tid])
      rw [List.append_assoc]
    · rw [if_neg hm]
      exact ⟨[], by simp⟩
  | advance tid =>
    show ∃ tail, (advanceTask s tid).events = s.events ++ tail
    unfold advanceTask
    split
    · exact ⟨[], by simp⟩
    · exact ⟨[], by simp⟩
  | cancelInst iid =>
    show ∃ tail, ((cancelInstance s iid).1).events = s.events ++ tail
    unfold cancelInstance
    cases hf : s.instances.find? (fun i => decide (i.instance_id = iid)) with
    | none => exact ⟨[], by simp⟩
    | some i =>
      by_cases hr : i.state = RUNNING
      · simp only [hf, hr, if_true]
        exact ⟨[Event.instanceCancelled i.task_id iid], rfl⟩
      · simp only [hf, hr, if_false]
        exact ⟨[], by simp⟩
  | stop => exact ⟨[], by show s.events = s.events ++ []; simp⟩

theorem events_ext_trans (s1 s2 s3 : Sched)
    (h1 : ∃ t1, s2.events = s1.events ++ t1) (h2 : ∃ t2, s3.events = s2.events ++ t2) :
    ∃ t3, s3.events = s1.events ++ t3 := by
  obtain ⟨t1, h1⟩ := h1
  obtain ⟨t2, h2⟩ := h2
  exact ⟨t1 ++ t2, by rw [h2, h1, List.append_assoc]⟩

theorem applyCmds_events_ext (s : Sched) (cmds : List Cmd) :
    ∃ tail, (applyCmds s cmds).events = s.events ++ tail := by
  induction cmds generalizing s with
  | nil => exact ⟨[], by show s.events = s.events ++ []; simp⟩
  | cons c r ih =>
    exact events_ext_trans s (applyCmd s c) (applyCmds (applyCmd s c) r)
      (applyCmd_events_ext s c) (ih (applyCmd s c))

theorem dispatchFold_events_ext (l : List Nat) :
    ∀ s : Sched, ∃ tail, (l.foldl dispatchOne s).events = s.events ++ tail := by
  induction l with
  | nil => intro s; exact ⟨[], by show s.events = s.events ++ []; simp⟩
  | cons x r ih =>
    intro s
    obtain ⟨tail, _, hev, _⟩ := dispatchOne_spec s x
    rw [List.foldl_cons]
    exact events_ext_trans s (dispatchOne s x) (r.foldl dispatchOne (dispatchOne s x))
      ⟨tail, hev⟩ (ih (dispatchOne s x))

theorem applyOp_events_ext (s : Sched) (o : Op) :
    ∃ tail, (applyOp s o).events = s.events ++ tail := by
  cases o with
  | tick cmds =>
    show ∃ tail, (tickFn s cmds).events = s.events ++ tail
    unfold tickFn
    by_cases hst : (applyCmds s cmds).stopped = true
    · rw [if_pos hst]
      exact applyCmds_events_ext s cmds
    · rw [if_neg hst]
      refine events_ext_trans s (dispatchStep (applyCmds s cmds)) _ ?_ ?_
      · refine events_ext_trans s (applyCmds s cmds) _ (applyCmds_events_ext s cmds) ?_
        exact dispatchFold_events_ext _ _
      · refine ⟨((dispatchStep (applyCmds s cmds)).instances.filter (fun i => i.timedOutAt (dispatchStep (applyCmds s cmds)).now)).map (fun i => Event.instanceTimeout i.task_id i.instance_id), ?_⟩
        rfl
  | finish iid =>
    show ∃ tail, (finishInstance s iid).events = s.events ++ tail
    unfold finishInstance
    cases hf : s.instances.find? (fun i => decide (i.instance_id = iid)) with
    | none => exact ⟨[], by simp⟩
    | some i =>
      by_cases hr : i.state = RUNNING
      · simp only [hf, hr, if_true]
        exact ⟨[Event.instanceCompleted i.task_id iid], rfl⟩
      · simp only [hf, hr, if_false]
        exact ⟨[], by simp⟩
  | cancel iid => exact applyCmd_events_ext s (Cmd.cancelInst iid)

theorem runOps_events_ext (s : Sched) (ops : List Op) :
    ∃ tail, (runOps s ops).events = s.events ++ tail := by
  induction ops generalizing s with
  | nil => exact ⟨[], by show s.events = s.events ++ []; simp⟩
  | cons o r ih =>
    exact events_ext_trans s (applyOp s o) (runOps (applyOp s o) r)
      (applyOp_events_ext s o) (ih (applyOp s o))

theorem startedCount_mono (s : Sched) (ops : List Op) (tid : Nat) :
    startedCount s.events tid ≤ startedCount (runOps s ops).events tid := by
  obtain ⟨tail, h⟩ := runOps_events_ext s ops
  rw [h, startedCount_append]
  omega

theorem isCountdownAt_of_cdFlag (s : Sched) (tid : Nat) (h : cdFlag s tid = true) :
    isCountdownAt s tid := by
  intro t' h'
  unfold cdFlag at h
  rw [h'] at h
  obtain ⟨r, hr⟩ := Option.isSome_iff_exists.mp h
  exact ⟨r, hr⟩

theorem addTask_ok (s : Sched) (t : Task) (hok : (addTask s t).2 = none) :
    s.stopped = false ∧ t.task_id ≠ 0 ∧ t.task_id ∉ taskIds s ∧
    ∃ inst, t.sched t.cursor = some inst ∧
      (addTask s t).1 = { s with
        tasks := s.tasks ++ [{ t with cursor := t.cursor + 1 }],
        wheel := s.wheel.insert t.task_id (inst - s.now) s.now,
        chains := s.chains ++ [(t.task_id, [])] } := by
  unfold addTask at hok ⊢
  by_cases h1 : s.stopped = true
  · simp [h1] at hok
  · by_cases h2 : t.task_id = 0
    · simp [h1, h2] at hok
    · by_cases h3 : t.task_id ∈ taskIds s
      · simp [h1, h2, h3] at hok
      · cases hs : t.sched t.cursor with
        | none => simp [h1, h2, h3, hs] at hok
        | some inst =>
          refine ⟨by simpa using h1, h2, h3, inst, rfl, ?_⟩
          simp [h1, h2, h3]

theorem lookupTask_addTask_self (s : Sched) (t : Task)
    (hok : (addTask s t).2 = none) :
    lookupTask (addTask s t).1 t.task_id = some { t with cursor := t.cursor + 1 } ∧
    (addTask s t).1.events = s.events := by
  obtain ⟨_, _, hmem, inst, _, heq⟩ := addTask_ok s t hok
  rw [heq]
  constructor
  · show (s.tasks ++ [{ t with cursor := t.cursor + 1 }]).find?
      (fun u => decide (u.task_id = t.task_id)) = some { t with cursor := t.cursor + 1 }
    have hnone : s.tasks.find? (fun u => decide (u.task_id = t.task_id)) = none := by
      refine List.find?_eq_none.mpr ?_
      intro a ha hp
      simp at hp
      exact hmem (List.mem_map.mpr ⟨a, ha, hp⟩)
    rw [find?_append_none _ _ _ hnone, List.find?_cons_of_pos _ (by simp)]
  · rfl

theorem dispatchFold_now (l : List Nat) :
    ∀ s : Sched, (l.foldl dispatchOne s).now = s.now := by
  induction l with
  | nil => intro s; rfl
  | cons x r ih =>
    intro s
    obtain ⟨_, _, _, _, hnow, _⟩ := dispatchOne_spec s x
    rw [List.foldl_cons, ih (dispatchOne s x), hnow]

theorem dispatchStep_now (s : Sched) : (dispatchStep s).now = s.now := by
  unfold dispatchStep
  rw [dispatchFold_now]

theorem dispatchStep_mem (s : Sched) (i : Instance) (hi : i ∈ s.instances) :
    i ∈ (dispatchStep s).instances := by
  unfold dispatchStep
  exact stable_dispatchFold _ i _ hi

theorem isTerminal_ne_running (st : Nat) (h : isTerminal st) : st ≠ RUNNING := by
  rcases h with h | h | h <;> rw [h] <;> decide

theorem tick_marks_timeout (s : Sched) (i : Instance) (hstop : s.stopped = false)
    (hi : i ∈ s.instances) (hr : i.state = RUNNING) (hd : i.deadline = some s.now) :
    ({ i with state := TIMEOUT, signaled := true }) ∈ (tickFn s []).instances ∧
    Event.instanceTimeout i.task_id i.instance_id ∈ (tickFn s []).events := by
  unfold tickFn
  rw [if_neg (by
    show ¬((applyCmds s []).stopped = true)
    have : (applyCmds s []).stopped = s.stopped := rfl
    rw [this, hstop]
    simp)]
  have hmem : i ∈ (dispatchStep (applyCmds s [])).instances := by
    refine dispatchStep_mem _ i ?_
    exact hi
  have hnow : (dispatchStep (applyCmds s [])).now = s.now := by
    rw [dispatchStep_now]
    rfl
  have hto : i.timedOutAt (dispatchStep (applyCmds s [])).now = true := by
    rw [hnow]
    simp [Instance.timedOutAt, hr, hd]
  constructor
  · show ({ i with state := TIMEOUT, signaled := true }) ∈
      (timeoutScan (dispatchStep (applyCmds s []))).instances
    exact mem_map_ite_of_yes _ (fun k => k.timedOutAt (dispatchStep (applyCmds s [])).now = true)
      (fun k => { k with state := TIMEOUT, signaled := true }) i hmem hto
  · show Event.instanceTimeout i.task_id i.instance_id ∈
      ((dispatchStep (applyCmds s [])).events ++
        ((dispatchStep (applyCmds s [])).instances.filter
          (fun k => k.timedOutAt (dispatchStep (applyCmds s [])).now)).map
          (fun k => Event.instanceTimeout k.task_id k.instance_id))
    refine List.mem_append_right _ ?_
    exact List.mem_map.mpr ⟨i, List.mem_filter.mpr ⟨hmem, hto⟩, rfl⟩

theorem scan_decrements (s : Sched) (i : Instance) (hi : i ∈ s.instances)
    (hr : i.state = RUNNING) (hd : i.deadline = some s.now) :
    runningCount (timeoutScan s) i.task_id < runningCount s i.task_id := by
  show (s.instances.map (fun k => if k.timedOutAt s.now then
      { k with state := TIMEOUT, signaled := true } else k)).countP
      (fun k => k.isRunningOf i.task_id) <
    s.instances.countP (fun k => k.isRunningOf i.task_id)
  refine countP_map_ite_lt s.instances _ _ _ ?_ i hi ?_ ?_ ?_
  · intro a ha
    simp only [Instance.isRunningOf, Bool.and_eq_true, decide_eq_true_eq] at ha
    exact absurd ha.2 (by decide)
  · simp [Instance.isRunningOf, hr]
  · simp [Instance.timedOutAt, hr, hd]
  · simp [Instance.isRunningOf, TIMEOUT, RUNNING]

theorem insert_zero_fires (w : Wheel) (tid now now2 : Nat)
    (hlen : w.slots.length = w.size) (hcur : w.current < w.size) :
    tid ∈ ((w.insert tid 0 now).popDue now2).1 := by
  have hpos : 0 < w.size := Nat.lt_of_le_of_lt (Nat.zero_le _) hcur
  unfold Wheel.insert Wheel.place
  rw [if_pos (by show 0 < w.size; exact hpos)]
  show tid ∈ ((({ w.remove tid with
    slots := (w.remove tid).slots.set (((w.remove tid).current + 0) % (w.remove tid).size)
      (((w.remove tid).slots.getD (((w.remove tid).current + 0) % (w.remove tid).size) []) ++ [tid]) } : Wheel)).popDue now2).1
  have hidx : ((w.remove tid).current + 0) % (w.remove tid).size = w.current := by
    show (w.current + 0) % w.size = w.current
    rw [Nat.add_zero, Nat.mod_eq_of_lt hcur]
  rw [hidx]
  have hlen2 : w.current < (w.remove tid).slots.length := by
    show w.current < (w.slots.map _).length
    rw [List.length_map, hlen]
    exact hcur
  have hget := getD_set_self (w.remove tid).slots w.current
    (((w.remove tid).slots.getD w.current []) ++ [tid]) hlen2
  unfold Wheel.popDue
  refine List.mem_append_left _ ?_
  show tid ∈ ((w.remove tid).slots.set w.current _).getD w.current []
  rw [hget]
  exact List.mem_append_right _ (List.mem_singleton_self tid)

/-- C1: for every registered task `t` and every reachable scheduler state,
the number of RUNNING instances of `t` never exceeds `t.max_parallel`; and
when the dispatcher pops a due task whose RUNNING count has reached the
cap, it spawns no instance, emits `PARALLEL_LIMIT_REACHED`, and still
reschedules the task (re-inserting it into the wheel at its next cron
delay when its countdown is not exhausted). -/
theorem parallel_cap_claim :
    (∀ (W : Nat) (s : Sched), Reachable W s →
      ∀ t ∈ s.tasks, runningCount s t.task_id ≤ t.max_parallel) ∧
    (∀ (s : Sched) (tid : Nat) (t : Task), lookupTask s tid = some t →
      ¬t.remaining_count = some 0 → t.max_parallel ≤ runningCount s tid →
      (dispatchOne s tid).instances = s.instances ∧
      (dispatchOne s tid).events = s.events ++ [Event.parallelLimitReached tid] ∧
      (¬decRemaining t.remaining_count = some 0 →
        ∀ inst, t.sched t.cursor = some inst →
        (dispatchOne s tid).wheel = s.wheel.insert tid (max (inst - s.now) 1) s.now)) := by
  constructor
  · intro W s hreach t ht
    exact (inv_reachable W s hreach).parCap t ht
  · intro s tid t hl hret hcap
    simp only [dispatchOne, hl]
    rw [if_neg hret]
    simp only [if_pos hcap]
    refine ⟨?_, ?_, ?_⟩
    · split
      · rfl
      · split
        · rfl
        · rfl
    · split
      · rfl
      · split
        · rfl
        · rfl
    · intro hz inst hsi
      rw [if_neg hz, hsi]

/-- C9: each task id occupies at most one place in the timing wheel: any
sequence of `insert`, `pop_due`, `remove` and current-slot-advance
operations applied to a wheel in which every id occurs at most once
preserves that bound (the auxiliary id-to-slot map makes `insert` erase a
previous occurrence first). -/
theorem wheel_single_occupancy_claim :
    ∀ (ops : List WheelOp) (w : Wheel), (∀ y, w.count y ≤ 1) →
      ∀ y, (runWheelOps w ops).count y ≤ 1 := by
  intro ops
  induction ops with
  | nil => intro w h y; exact h y
  | cons o r ih =>
    intro w h y
    exact ih (applyWheelOp w o) (applyWheelOp_single w o h) y

/-- C10: the numeric state encoding makes terminality a single comparison:
`RUNNING = 1` is the unique non-terminal state, the terminal states are
`COMPLETED = 2`, `CANCELLED = 3`, `TIMEOUT = 4`, and for every instance of
every reachable scheduler state, `get_state() ≥ COMPLETED` holds exactly
when the instance has terminated. -/
theorem state_encoding_claim :
    RUNNING = 1 ∧ COMPLETED = 2 ∧ CANCELLED = 3 ∧ TIMEOUT = 4 ∧
    (∀ st : Nat, (st = RUNNING ∨ st = COMPLETED ∨ st = CANCELLED ∨ st = TIMEOUT) →
      ((isTerminal st ↔ COMPLETED ≤ st) ∧ (¬st = RUNNING ↔ COMPLETED ≤ st))) ∧
    (∀ (W : Nat) (s : Sched), Reachable W s → ∀ i ∈ s.instances,
      (i.getState = RUNNING ∨ i.getState = COMPLETED ∨ i.getState = CANCELLED ∨
        i.getState = TIMEOUT) ∧
      (isTerminal i.getState ↔ COMPLETED ≤ i.getState)) := by
  refine ⟨rfl, rfl, rfl, rfl, ?_, ?_⟩
  · intro st hst
    rcases hst with rfl | rfl | rfl | rfl <;> constructor <;> constructor <;> intro h <;>
      first
        | decide
        | (exact absurd h (by decide))
        | (simp [isTerminal, RUNNING, COMPLETED, CANCELLED, TIMEOUT] at h ⊢)
        | rfl
  · intro W s hreach i hi
    have hv := (inv_reachable W s hreach).instValid i hi
    refine ⟨hv, ?_⟩
    rcases hv with h | h | h | h <;>
      rw [show i.getState = i.state from rfl, h] <;>
      simp [isTerminal, RUNNING, COMPLETED, CANCELLED, TIMEOUT]

/-- C3: every instance is created in state RUNNING (spawning appends a
RUNNING entry to the table, and any entry the dispatcher adds is
RUNNING); and the terminal states are absorbing: once an instance of a
reachable state is terminal, its table entry survives every later
operation unchanged, so every later `get_state()` through its handle
returns the same state. -/
theorem instance_lifecycle_claim :
    (∀ (s : Sched) (t : Task), (spawnInstance s t).instances = s.instances ++
      [{ instance_id := s.next_instance_id, task_id := t.task_id, state := RUNNING,
         started_at := s.now, deadline := t.max_running_time.map (fun k => s.now + k),
         signaled := false }]) ∧
    (∀ (s : Sched) (tid : Nat) (j : Instance), j ∈ (dispatchOne s tid).instances →
      j ∈ s.instances ∨ j.state = RUNNING) ∧
    (∀ (W : Nat) (s : Sched) (ops : List Op) (i : Instance), Reachable W s →
      i ∈ s.instances → isTerminal i.getState →
      i ∈ (runOps s ops).instances ∧
      ∀ j ∈ (runOps s ops).instances, j.instance_id = i.instance_id →
        j.getState = i.getState) := by
  refine ⟨fun s t => rfl, ?_, ?_⟩
  · intro s tid j hj
    obtain ⟨tail, ni, _, hinsts, _, _, _, _, hni, _⟩ := dispatchOne_spec s tid
    rw [hinsts] at hj
    rcases List.mem_append.mp hj with hj | hj
    · exact Or.inl hj
    · exact Or.inr (hni j hj)
  · intro W s ops i hreach hi hterm
    have hinv := inv_reachable W s hreach
    have hnr : ¬i.state = RUNNING := isTerminal_ne_running i.getState hterm
    have hmem := stable_runOps s ops i hinv hi hnr
    refine ⟨hmem, ?_⟩
    intro j hj hij
    have hinv2 := inv_reachable W (runOps s ops) (runOps_reachable W s ops hreach)
    have : j = i := uniq_of_nodup_ids (runOps s ops) hinv2 j i hj hmem hij
    rw [this]

/-- C4: a spawned instance of a task with `max_running_time = k` records
the deadline `started_at + k`; in every reachable state no instance is
marked TIMEOUT before its deadline and no RUNNING instance of a live
scheduler has a deadline in the past (so the mark lands within the
one-second tick containing the deadline, i.e. between `k` and `k + 1`
seconds after the start tick); the tick whose time equals the deadline
marks the instance TIMEOUT, signals its termination token and emits
`INSTANCE_TIMEOUT`; and the deadline scan strictly decreases the task's
RUNNING counter. -/
theorem timeout_claim :
    (∀ (s : Sched) (t : Task) (k : Nat), t.max_running_time = some k →
      (spawnInstance s t).instances = s.instances ++
        [{ instance_id := s.next_instance_id, task_id := t.task_id, state := RUNNING,
           started_at := s.now, deadline := some (s.now + k), signaled := false }]) ∧
    (∀ (W : Nat) (s : Sched), Reachable W s →
      (∀ i ∈ s.instances, i.state = TIMEOUT → ∃ d, i.deadline = some d ∧ d ≤ s.now) ∧
      (s.stopped = false → ∀ i ∈ s.instances, i.state = RUNNING →
        ∀ d, i.deadline = some d → s.now ≤ d)) ∧
    (∀ (s : Sched) (i : Instance), s.stopped = false → i ∈ s.instances →
      i.state = RUNNING → i.deadline = some s.now →
      ({ i with state := TIMEOUT, signaled := true }) ∈ (tickFn s []).instances ∧
      Event.instanceTimeout i.task_id i.instance_id ∈ (tickFn s []).events) ∧
    (∀ (s : Sched) (i : Instance), i ∈ s.instances → i.state = RUNNING →
      i.deadline = some s.now →
      runningCount (timeoutScan s) i.task_id < runningCount s i.task_id) := by
  refine ⟨?_, ?_, ?_, ?_⟩
  · intro s t k hk
    show (spawnInstance s t).instances = _
    unfold spawnInstance
    rw [hk]
    rfl
  · intro W s hreach
    have hinv := inv_reachable W s hreach
    exact ⟨hinv.timeoutDeadline, hinv.runDeadline⟩
  · intro s i hstop hi hr hd
    exact tick_marks_timeout s i hstop hi hr hd
  · intro s i hi hr hd
    exact scan_decrements s i hi hr hd

/-- C5: `advance_task` on a registered task rewrites only the wheel,
removing the task's occurrence and re-inserting it with delay 0 while the
registry (and with it the cron cursor and countdown) is untouched; a
delay-0 entry lands in the current slot, so the very next `pop_due` yields
it; and in the `test_advance` scenario (a yearly schedule far in the
future, `CountDown(3, …)`) three advances produce exactly the three
`INSTANCE_STARTED` events, in issue order, and a fourth advance produces
none. -/
theorem advance_claim :
    (∀ (s : Sched) (tid : Nat), tid ∈ taskIds s →
      advanceTask s tid = { s with wheel := s.wheel.insert tid 0 s.now }) ∧
    (∀ (s : Sched) (tid : Nat), (advanceTask s tid).tasks = s.tasks) ∧
    (∀ (w : Wheel) (tid now now2 : Nat), w.slots.length = w.size →
      w.current < w.size → tid ∈ ((w.insert tid 0 now).popDue now2).1) ∧
    ((runOps (initSched 8) opsAdv).events =
      [Event.instanceStarted 1 1, Event.instanceStarted 1 2, Event.instanceStarted 1 3] ∧
      startedCount (runOps (initSched 8) opsAdv).events 1 = 3) := by
  refine ⟨?_, ?_, ?_, ?_, ?_⟩
  · intro s tid hmem
    unfold advanceTask
    rw [if_pos hmem]
  · intro s tid
    exact advanceTask_tasks s tid
  · intro w tid now now2 hlen hcur
    exact insert_zero_fires w tid now now2 hlen hcur
  · decide
  · decide

/-- C6: cancelling a RUNNING instance through its handle returns `ok`,
moves the instance to CANCELLED with its termination token signalled, and
emits `INSTANCE_CANCELLED`; cancelling an instance that is no longer
RUNNING returns `ALREADY_TERMINAL` and leaves the whole scheduler state
unchanged. -/
theorem cancel_claim :
    (∀ (s : Sched) (iid : Nat) (i : Instance),
      s.instances.find? (fun j => decide (j.instance_id = iid)) = some i →
      i.state = RUNNING →
      (cancelInstance s iid).2 = CancelResult.ok ∧
      ({ i with state := CANCELLED, signaled := true }) ∈ (cancelInstance s iid).1.instances ∧
      (cancelInstance s iid).1.events = s.events ++ [Event.instanceCancelled i.task_id iid]) ∧
    (∀ (s : Sched) (iid : Nat) (i : Instance),
      s.instances.find? (fun j => decide (j.instance_id = iid)) = some i →
      ¬i.state = RUNNING → cancelInstance s iid = (s, CancelResult.alreadyTerminal)) := by
  constructor
  · intro s iid i hf hr
    have hfm : i ∈ s.instances := List.mem_of_find?_eq_some hf
    have hfi : i.instance_id = iid := by simpa using List.find?_some hf
    unfold cancelInstance
    simp only [hf, hr, if_true, true_and, and_true, eq_self_iff_true]
    exact mem_map_ite_of_yes s.instances (fun j => j.instance_id = iid)
      (fun j => { j with state := CANCELLED, signaled := true }) i hfm hfi
  · intro s iid i hf hr
    unfold cancelInstance
    simp only [hf, hr, if_false]

/-- C8: registration is rejected (returning the scheduler unchanged) with
`DUPLICATE_ID` when the id is already registered, with `INVALID_SCHEDULE`
when the cron iterator yields no instant, and with `RESERVED_ID` for the
reserved id 0, which the task builder also rejects. -/
theorem registration_claim :
    (∀ (s : Sched) (t : Task) (e : AddError), (addTask s t).2 = some e →
      (addTask s t).1 = s) ∧
    (∀ (s : Sched) (t : Task), s.stopped = false → t.task_id ≠ 0 →
      t.task_id ∈ taskIds s → addTask s t = (s, some AddError.duplicateId)) ∧
    (∀ (s : Sched) (t : Task), s.stopped = false → t.task_id ≠ 0 →
      t.task_id ∉ taskIds s → t.sched t.cursor = none →
      addTask s t = (s, some AddError.invalidSchedule)) ∧
    (∀ (s : Sched) (t : Task), s.stopped = false → t.task_id = 0 →
      addTask s t = (s, some AddError.reservedId)) ∧
    (∀ (freq : Frequency) (mp : Nat) (mrt : Option Nat) (sch : Nat → Option Nat),
      spawnChecked 0 freq mp mrt sch = Except.error AddError.reservedId) := by
  refine ⟨?_, ?_, ?_, ?_, ?_⟩
  · intro s t e h
    exact addTask_err_unchanged s t e h
  · intro s t h1 h2 h3
    unfold addTask
    simp [h1, h2, h3]
  · intro s t h1 h2 h3 h4
    unfold addTask
    simp [h1, h2, h3, h4]
  · intro s t h1 h2
    unfold addTask
    simp [h1, h2]
  · intro freq mp mrt sch
    rfl

/-- C2: a task with a finite firing budget fires at most that many times:
from any state in which the task's `remaining_count` is `some r`, any
operation sequence that does not re-register the id adds at most `r`
firings; hence a freshly registered `CountDown(n, cron)` task fires at
most `n` times in total; and in the `go_works`/`tests_countdown` scenario
(`CountDown(3, every-two-seconds)`) the firing count is exactly 3 after
the waiting period and stays 3 forever after. -/
theorem countdown_claim :
    (∀ (s : Sched) (tid : Nat) (t : Task) (r : Nat) (ops : List Op),
      lookupTask s tid = some t → t.remaining_count = some r →
      (∀ o ∈ ops, o.noAdd tid) →
      startedCount (runOps s ops).events tid ≤ startedCount s.events tid + r) ∧
    (∀ (s : Sched) (t : Task) (n : Nat) (ops : List Op),
      t.frequency = Frequency.CountDown n →
      t.remaining_count = initRemaining t.frequency →
      (addTask s t).2 = none →
      (∀ o ∈ ops, o.noAdd t.task_id) →
      startedCount (runOps (addTask s t).1 ops).events t.task_id ≤
        startedCount s.events t.task_id + n) ∧
    (startedCount (runOps (initSched 8) opsCD).events 1 = 3 ∧
      ∀ ops : List Op, (∀ o ∈ ops, o.noAdd 1) →
        startedCount (runOps (runOps (initSched 8) opsCD) ops).events 1 = 3) := by
  have main : ∀ (s : Sched) (tid : Nat) (t : Task) (r : Nat) (ops : List Op),
      lookupTask s tid = some t → t.remaining_count = some r →
      (∀ o ∈ ops, o.noAdd tid) →
      startedCount (runOps s ops).events tid ≤ startedCount s.events tid + r := by
    intro s tid t r ops hl hrem hna
    have hcd : isCountdownAt s tid := by
      intro t' h'
      rw [hl] at h'
      cases h'
      exact ⟨r, hrem⟩
    obtain ⟨_, hle⟩ := cd_runOps s ops tid hcd hna
    have hpot : remPot s tid = r := by
      simp only [remPot, hl]
      rw [hrem]
      rfl
    rw [hpot] at hle
    omega
  refine ⟨main, ?_, ?_, ?_⟩
  · intro s t n ops hfreq hrem hok hna
    obtain ⟨hlk, hev⟩ := lookupTask_addTask_self s t hok
    have hrem2 : ({ t with cursor := t.cursor + 1 } : Task).remaining_count = some n := by
      show t.remaining_count = some n
      rw [hrem, hfreq]
      rfl
    have := main (addTask s t).1 t.task_id { t with cursor := t.cursor + 1 } n ops hlk hrem2 hna
    rw [hev] at this
    exact this
  · rfl
  · intro ops hna
    have hub := main (runOps (initSched 8) opsCD) 1
      { taskCD with cursor := 4, remaining_count := some 0 } 0 ops ?_ rfl hna
    · have hlb := startedCount_mono (runOps (initSched 8) opsCD) ops 1
      have hstart : startedCount (runOps (initSched 8) opsCD).events 1 = 3 := rfl
      omega
    · rfl

/-- C7: `remove_task` leaves the task id absent (unregistered and erased
from the wheel); once absent, no operation sequence that does not
re-register the id ever emits another `INSTANCE_STARTED` event for it,
and the id stays absent; and because the control channel is drained at
the top of a tick before any dispatch, a tick whose drained commands
leave the id absent emits no `INSTANCE_STARTED` for it — a removal racing
a firing wins. -/
theorem removal_final_claim :
    (∀ (s : Sched) (tid : Nat), Inv s → Absent (removeTask s tid) tid) ∧
    (∀ (s : Sched) (tid : Nat) (ops : List Op), Absent s tid →
      (∀ o ∈ ops, o.noAdd tid) →
      Absent (runOps s ops) tid ∧
      startedCount (runOps s ops).events tid = startedCount s.events tid) ∧
    (∀ (s : Sched) (cmds : List Cmd) (tid : Nat), Absent (applyCmds s cmds) tid →
      startedCount (tickFn s cmds).events tid = startedCount s.events tid) := by
  refine ⟨?_, ?_, ?_⟩
  · intro s tid hinv
    exact removeTask_absent s tid hinv
  · intro s tid ops h hna
    exact absent_runOps s ops tid h hna
  · intro s cmds tid h
    obtain ⟨_, hb⟩ := absent_tickFn s cmds tid h
    rw [hb, applyCmds_startedCount]

/-- Witness for C1 at concrete inputs: a one-tick-old scheduler holding the
repeating task respects the cap, and popping task 1 of `schedCap` (already
at its cap) emits `PARALLEL_LIMIT_REACHED` and spawns nothing. -/
theorem parallel_cap_witness :
    runningCount (applyOp (initSched 4) (Op.tick [Cmd.add taskRep]))
        ({ taskRep with cursor := 1 } : Task).task_id ≤
      ({ taskRep with cursor := 1 } : Task).max_parallel ∧
    (dispatchOne schedCap 1).instances = schedCap.instances ∧
    (dispatchOne schedCap 1).events =
      schedCap.events ++ [Event.parallelLimitReached 1] :=
  ⟨parallel_cap_claim.1 4 (applyOp (initSched 4) (Op.tick [Cmd.add taskRep]))
      (Reachable.step _ _ Reachable.init) { taskRep with cursor := 1 }
      (List.mem_singleton_self _),
   (parallel_cap_claim.2 schedCap 1 taskCap rfl (by decide) (by decide)).1,
   (parallel_cap_claim.2 schedCap 1 taskCap rfl (by decide) (by decide)).2.1⟩

/-- Witness for C2 at concrete inputs: after the countdown scenario and two
further no-registration ticks, the firing count of task 1 is still exactly
3. -/
theorem countdown_witness :
    startedCount (runOps (runOps (initSched 8) opsCD)
      [Op.tick [], Op.tick []]).events 1 = 3 :=
  countdown_claim.2.2.2 [Op.tick [], Op.tick []] (by
    intro o ho
    rcases List.mem_cons.mp ho with rfl | ho2
    · intro c hc
      cases hc
    · rcases List.mem_cons.mp ho2 with rfl | h3
      · intro c hc
        cases hc
      · cases h3)

/-- Witness for C3 at concrete inputs: the completed first instance of the
countdown scenario survives a later cancel attempt and a further tick
untouched. -/
theorem instance_lifecycle_witness :
    instDone ∈ (runOps schedCD3 [Op.cancel 1, Op.tick []]).instances :=
  (instance_lifecycle_claim.2.2 8 schedCD3 [Op.cancel 1, Op.tick []] instDone
    (runOps_reachable 8 (initSched 8) _ Reachable.init)
    (List.mem_singleton_self _) (Or.inl rfl)).1

/-- Witness for C4 at concrete inputs: the tick at the first timeout
instance's deadline marks it TIMEOUT with its token signalled. -/
theorem timeout_witness :
    ({ instTO with state := TIMEOUT, signaled := true }) ∈ (tickFn schedTO []).instances :=
  (timeout_claim.2.2.1 schedTO instTO rfl (List.mem_cons_self _ _) rfl rfl).1

/-- Witness for C5 at concrete inputs: an id inserted with delay 0 into a
fresh four-slot wheel is yielded by the very next `pop_due`. -/
theorem advance_witness :
    1 ∈ (((mkWheel 4).insert 1 0 0).popDue 1).1 :=
  advance_claim.2.2.1 (mkWheel 4) 1 0 1 (by decide) (by decide)

/-- Witness for C6 at concrete inputs: cancelling the RUNNING instance of
`schedCap` emits `INSTANCE_CANCELLED`, and cancelling it in the state
where it is already CANCELLED returns `ALREADY_TERMINAL`. -/
theorem cancel_witness :
    (cancelInstance schedCap 1).1.events =
      schedCap.events ++ [Event.instanceCancelled 1 1] ∧
    cancelInstance (cancelInstance schedCap 1).1 1 =
      ((cancelInstance schedCap 1).1, CancelResult.alreadyTerminal) :=
  ⟨(cancel_claim.1 schedCap 1 instCap rfl rfl).2.2,
   cancel_claim.2 (cancelInstance schedCap 1).1 1
     { instCap with state := CANCELLED, signaled := true } rfl (by decide)⟩

/-- Witness for C7 at concrete inputs: removing task 1 after its countdown
scenario has started leaves its firing count frozen over two further
ticks. -/
theorem removal_final_witness :
    startedCount (runOps (removeTask schedCD3 1) [Op.tick [], Op.tick []]).events 1 =
      startedCount (removeTask schedCD3 1).events 1 :=
  (removal_final_claim.2.1 (removeTask schedCD3 1) 1 [Op.tick [], Op.tick []]
    (removal_final_claim.1 schedCD3 1
      (inv_reachable 8 schedCD3 (runOps_reachable 8 (initSched 8) _ Reachable.init)))
    (by
      intro o ho
      rcases List.mem_cons.mp ho with rfl | ho2
      · intro c hc
        cases hc
      · rcases List.mem_cons.mp ho2 with rfl | h3
        · intro c hc
          cases hc
        · cases h3)).2

/-- Witness for C8 at concrete inputs: re-registering id 1 on `schedCap`
is refused with `DUPLICATE_ID` and changes nothing. -/
theorem registration_witness :
    addTask schedCap taskCap = (schedCap, some AddError.duplicateId) :=
  registration_claim.2.1 schedCap taskCap rfl (by decide) (by decide)

/-- Witness for C9 at concrete inputs: a fresh wheel keeps single occupancy
through an insert, a pop, a tick advance, a re-insert into overflow, and a
remove. -/
theorem wheel_single_occupancy_witness :
    (runWheelOps (mkWheel 4)
      [WheelOp.ins 5 2 0, WheelOp.pop 0, WheelOp.adv, WheelOp.ins 5 9 1,
        WheelOp.rm 5]).count 5 ≤ 1 :=
  wheel_single_occupancy_claim
    [WheelOp.ins 5 2 0, WheelOp.pop 0, WheelOp.adv, WheelOp.ins 5 9 1, WheelOp.rm 5]
    (mkWheel 4) (fun y => by rw [mkWheel_count]; exact Nat.zero_le 1) 5

/-- Witness for C10 at concrete inputs: the TIMEOUT constant is terminal
exactly because it is at least COMPLETED. -/
theorem state_encoding_witness :
    (isTerminal TIMEOUT ↔ COMPLETED ≤ TIMEOUT) ∧
    (¬TIMEOUT = RUNNING ↔ COMPLETED ≤ TIMEOUT) :=
  state_encoding_claim.2.2.2.2.1 TIMEOUT (Or.inr (Or.inr (Or.inr rfl)))

end DelayTimer
